import Mathlib

/-!
# Verification of the dual-puzzle image-matcher core

Shallow embedding of the puzzle-generation core (`imageMatcher` module and the
arrangement `swapTiles` utility).  Images and tiles are 2-D lists of hex color
strings, exactly as in the source.  JavaScript numbers are modelled as exact
rationals (`ℚ`) for all pixel/normalization arithmetic, and as reals (`ℝ`) in
`tileSimilarity`, whose Euclidean distance needs `Real.sqrt`.  JavaScript
`Infinity` (used only as the initial best-distance sentinel in nearest-color
searches) is modelled as `⊤ : WithTop ℚ`.  Out-of-range list reads, which in
JavaScript produce `undefined` and subsequently `NaN`, are modelled with
`List.getD` defaults; every theorem below that depends on pixel contents
carries the validity hypotheses (rectangular image, non-empty, `#RRGGBB`
pixels) under which those defaults are never reached, so the embedding and the
JavaScript agree on the whole domain quantified over.

The core `Rat` arithmetic operations are restored to `semireducible` so that
concrete runs of the embedded functions can be settled by `decide` (kernel
evaluation); this affects elaboration transparency only.
-/

set_option allowUnsafeReducibility true

attribute [semireducible] Rat.add Rat.mul Rat.inv Rat.div Rat.sub Rat.neg Rat.normalize

/-- Value of one hex digit, `none` when the character is not a hex digit
(JS `parseInt` accepts both lowercase and uppercase digits). -/
def hexDigit? (c : Char) : Option Nat :=
  if '0' ≤ c ∧ c ≤ '9' then some (c.toNat - '0'.toNat)
  else if 'a' ≤ c ∧ c ≤ 'f' then some (c.toNat - 'a'.toNat + 10)
  else if 'A' ≤ c ∧ c ≤ 'F' then some (c.toNat - 'A'.toNat + 10)
  else none

/-- JS `hex.replace('#', '')` with a string pattern replaces only the first
occurrence of `'#'`. -/
def stripFirstHash : List Char → List Char
  | [] => []
  | c :: cs => if c = '#' then cs else c :: stripFirstHash cs

/-- JS `parseInt(s, 16)` on the (at most two-character) substrings taken by
`hexToRgb`: the value of the longest hex-digit prefix.  When there is no digit
JS yields `NaN`; that case is modelled as `0` and never arises under the
valid-`#RRGGBB` hypotheses carried by the theorems. -/
def parseHex2 (cs : List Char) : Nat :=
  match cs with
  | [] => 0
  | [c] =>
    match hexDigit? c with
    | some d => d
    | none => 0
  | c1 :: c2 :: _ =>
    match hexDigit? c1 with
    | none => 0
    | some d1 =>
      match hexDigit? c2 with
      | some d2 => 16 * d1 + d2
      | none => d1

/-- `hexToRgb` from the source: strip `'#'`, parse the three two-character
substrings `(0,2)`, `(2,4)`, `(4,6)` in base 16. -/
def hexToRgb (hex : String) : Nat × Nat × Nat :=
  let h := stripFirstHash hex.data
  (parseHex2 (h.take 2), parseHex2 ((h.drop 2).take 2), parseHex2 ((h.drop 4).take 2))

/-- A pixel string of the exact form `#RRGGBB` (six hex digits). -/
def isValidHex (s : String) : Bool :=
  match s.data with
  | '#' :: rest => rest.length == 6 && rest.all (fun c => (hexDigit? c).isSome)
  | _ => false

/-- `Math.max(0, Math.min(255, x))`. -/
def clamp255 (x : ℚ) : ℚ := max 0 (min 255 x)

/-- JS `Math.round`: rounds to the nearest integer, halves toward `+∞`. -/
def jsRound (x : ℚ) : ℤ := ⌊x + 1 / 2⌋

/-- JS `.padStart(2, '0')`. -/
def padStart2 (cs : List Char) : List Char :=
  List.replicate (2 - cs.length) '0' ++ cs

/-- One channel of `rgbToHex`: clamp, round, `toString(16)`, pad to width 2. -/
def toHexByte (x : ℚ) : List Char :=
  padStart2 (Nat.toDigits 16 (jsRound (clamp255 x)).toNat)

/-- `rgbToHex` from the source. -/
def rgbToHex (r g b : ℚ) : String :=
  ⟨'#' :: (toHexByte r ++ toHexByte g ++ toHexByte b)⟩

/-- `getLuminance` from the source. -/
def getLuminance (r g b : ℚ) : ℚ := 0.299 * r + 0.587 * g + 0.114 * b

/-- `extractTiles` from the source: cut `gridSize²` tiles of size
`⌊h/gridSize⌋ × ⌊w/gridSize⌋`, row-major (tile row 0 left-to-right, then tile
row 1, ...). -/
def extractTiles (imageData : List (List String)) (gridSize : Nat) :
    List (List (List String)) :=
  let tileHeight := imageData.length / gridSize
  let tileWidth := (imageData.getD 0 []).length / gridSize
  (List.range gridSize).flatMap (fun tileRow =>
    (List.range gridSize).map (fun tileCol =>
      (List.range tileHeight).map (fun r =>
        (List.range tileWidth).map (fun c =>
          (imageData.getD (tileRow * tileHeight + r) []).getD
            (tileCol * tileWidth + c) ""))))

/-- The Euclidean RGB distance between two pixels (the `diff` of one
`tileSimilarity` loop iteration). -/
noncomputable def pixelDiff (pxA pxB : String) : ℝ :=
  Real.sqrt ((((hexToRgb pxA).1 : ℝ) - ((hexToRgb pxB).1 : ℝ)) ^ 2 +
    (((hexToRgb pxA).2.1 : ℝ) - ((hexToRgb pxB).2.1 : ℝ)) ^ 2 +
    (((hexToRgb pxA).2.2 : ℝ) - ((hexToRgb pxB).2.2 : ℝ)) ^ 2)

/-- The `(totalDiff, pixelCount)` accumulator pair of the `tileSimilarity`
loops. -/
noncomputable def tileSimAcc (tileA tileB : List (List String)) : ℝ × ℝ :=
  (List.range tileA.length).foldl (fun st r =>
    (List.range (tileA.getD 0 []).length).foldl (fun st c =>
      (st.1 + pixelDiff ((tileA.getD r []).getD c "") ((tileB.getD r []).getD c ""),
       st.2 + 1)) st) (0, 0)

/-- `tileSimilarity` from the source: `0` on dimension mismatch, otherwise
`1 - avgDiff / 441.67` where `avgDiff = totalDiff / pixelCount` is the mean
per-pixel Euclidean RGB distance. -/
noncomputable def tileSimilarity (tileA tileB : List (List String)) : ℝ :=
  if tileA.length ≠ tileB.length ∨
      (tileA.getD 0 []).length ≠ (tileB.getD 0 []).length then 0
  else 1 - (tileSimAcc tileA tileB).1 / (tileSimAcc tileA tileB).2 / 441.67

/-- `buildSimilarityMatrix` from the source. -/
noncomputable def buildSimilarityMatrix (tilesA tilesB : List (List (List String))) :
    List (List ℝ) :=
  (List.range tilesA.length).map (fun i =>
    (List.range tilesA.length).map (fun j =>
      tileSimilarity (tilesA.getD i []) (tilesB.getD j [])))

/-- One entry of the `allPairs` list built by `hungarianAlgorithm`. -/
structure SimPair (α : Type) where
  i : Nat
  j : Nat
  sim : α

/-- The descending similarity order used by `allPairs.sort((a, b) => b.sim - a.sim)`. -/
def pairLE {α : Type} [LinearOrder α] (a b : SimPair α) : Prop := b.sim ≤ a.sim

instance pairLE.decRel {α : Type} [LinearOrder α] : DecidableRel (@pairLE α _) :=
  fun a b => inferInstanceAs (Decidable (b.sim ≤ a.sim))

instance pairLE.total {α : Type} [LinearOrder α] : IsTotal (SimPair α) pairLE :=
  ⟨fun a b => (le_total b.sim a.sim).imp id id⟩

instance pairLE.trans {α : Type} [LinearOrder α] : IsTrans (SimPair α) pairLE :=
  ⟨fun _ _ _ h1 h2 => le_trans h2 h1⟩

/-- The greedy scan of `hungarianAlgorithm`: state is
`(assignment, usedB)`; a pair `(i, j)` is committed when row `i` is still
`-1` and column `j` unused, and the loop breaks as soon as `usedB.size = n`
(the break test runs at the end of every iteration, as in the source). -/
def greedyAssign {α : Type} (n : Nat) :
    List (SimPair α) → List ℤ × Finset Nat → List ℤ × Finset Nat
  | [], st => st
  | pair :: rest, st =>
    let st' :=
      if st.1.getD pair.i 0 = -1 ∧ pair.j ∉ st.2 then
        (st.1.set pair.i (pair.j : ℤ), insert pair.j st.2)
      else st
    if st'.2.card = n then st' else greedyAssign n rest st'

/-- The row-major `allPairs` enumeration of `hungarianAlgorithm`. -/
def allSimPairs {α : Type} [Inhabited α] (similarityMatrix : List (List α)) :
    List (SimPair α) :=
  (List.range similarityMatrix.length).flatMap (fun i =>
    (List.range similarityMatrix.length).map (fun j =>
      ⟨i, j, (similarityMatrix.getD i []).getD j default⟩))

/-- `hungarianAlgorithm` from the source: enumerate all `n²` pairs row-major,
sort them descending by similarity (JS `sort` is stable; `insertionSort` is
the stable sort realizing the same comparator), then assign greedily. -/
def hungarianAlgorithm {α : Type} [LinearOrder α] [Inhabited α]
    (similarityMatrix : List (List α)) : List ℤ :=
  (greedyAssign similarityMatrix.length
    (List.insertionSort pairLE (allSimPairs similarityMatrix))
    (List.replicate similarityMatrix.length (-1), ∅)).1

/-- `blendTiles` from the source: per-pixel channel average with weight
`weightA`, re-encoded without clamping (`Math.round` then `toString(16)`). -/
def blendTiles (tileA tileB : List (List String)) (weightA : ℚ) :
    List (List String) :=
  (List.range tileA.length).map (fun r =>
    (List.range (tileA.getD 0 []).length).map (fun c =>
      let p1 := hexToRgb ((tileA.getD r []).getD c "")
      let p2 := hexToRgb ((tileB.getD r []).getD c "")
      let rBlend := jsRound ((p1.1 : ℚ) * weightA + (p2.1 : ℚ) * (1 - weightA))
      let gBlend := jsRound ((p1.2.1 : ℚ) * weightA + (p2.2.1 : ℚ) * (1 - weightA))
      let bBlend := jsRound ((p1.2.2 : ℚ) * weightA + (p2.2.2 : ℚ) * (1 - weightA))
      ⟨'#' :: (padStart2 (Nat.toDigits 16 rBlend.toNat) ++
        padStart2 (Nat.toDigits 16 gBlend.toNat) ++
        padStart2 (Nat.toDigits 16 bBlend.toNat))⟩))

/-- `TileMatch` record from the source (`tileIndexB` is the raw assignment
entry, an integer). -/
structure TileMatch where
  tileIndexA : Nat
  tileIndexB : ℤ
  similarity : ℝ
  blendedContent : List (List String)

/-- `MatchResult` record from the source.  `solutionB` is created as
`new Array(N)` (all slots empty) and then filled by index, so its slots are
`Option Nat` with `none` for a never-written slot. -/
structure MatchResult where
  tiles : List (List (List String))
  solutionA : List Nat
  solutionB : List (Option Nat)
  totalSimilarity : ℝ
  matchDetails : List TileMatch

/-- `matchImages` from the source: tiles → similarity matrix → greedy
assignment → blended tiles, `solutionA = [0..N)`, `solutionB` the inverse of
the assignment (`solutionB[matching[i]] = i`; a negative index write in JS
would not touch any slot, hence the guard). -/
noncomputable def matchImages (imageA imageB : List (List String))
    (gridSize : Nat) : MatchResult :=
  let tilesA := extractTiles imageA gridSize
  let tilesB := extractTiles imageB gridSize
  let simMatrix := buildSimilarityMatrix tilesA tilesB
  let matching := hungarianAlgorithm simMatrix
  let tiles := (List.range tilesA.length).map (fun i =>
    let j := (matching.getD i (-1)).toNat
    if (0.95 : ℝ) < (simMatrix.getD i []).getD j 0 then tilesA.getD i []
    else blendTiles (tilesA.getD i []) (tilesB.getD j []) (1 / 2))
  let matchDetails := (List.range tilesA.length).map (fun i =>
    let j := (matching.getD i (-1)).toNat
    TileMatch.mk i (matching.getD i (-1)) ((simMatrix.getD i []).getD j 0)
      (if (0.95 : ℝ) < (simMatrix.getD i []).getD j 0 then tilesA.getD i []
       else blendTiles (tilesA.getD i []) (tilesB.getD j []) (1 / 2)))
  let totalSimilarity := (List.range tilesA.length).foldl (fun acc i =>
    acc + (simMatrix.getD i []).getD (matching.getD i (-1)).toNat 0) 0
  let solutionA := List.range tilesA.length
  let solutionB := (List.range matching.length).foldl (fun acc i =>
    let j := matching.getD i (-1)
    if j < 0 then acc else acc.set j.toNat (some i))
    (List.replicate tilesA.length (none : Option Nat))
  ⟨tiles, solutionA, solutionB, totalSimilarity / tilesA.length, matchDetails⟩

/-- `swapTiles` from the source (`checkSolution` module): copy the array and
exchange the entries at `indexA` and `indexB` (the destructuring assignment
reads both old values before writing). -/
def swapTiles (arrangement : List String) (indexA indexB : Nat) : List String :=
  (arrangement.set indexA (arrangement.getD indexB "")).set indexB
    (arrangement.getD indexA "")

/-- `ColorHistogram` from the source: 256 bins per channel plus total count. -/
structure ColorHistogram where
  r : List ℚ
  g : List ℚ
  b : List ℚ
  totalPixels : ℚ

/-- `extractHistogram` from the source.  Parsed channel values are at most
255, so every `set` lands inside the 256-slot bins. -/
def extractHistogram (image : List (List String)) : ColorHistogram :=
  let st := image.foldl (fun st row =>
    row.foldl (fun (st : List ℚ × List ℚ × List ℚ × ℚ) pixel =>
      let rgb := hexToRgb pixel
      (st.1.set rgb.1 (st.1.getD rgb.1 0 + 1),
       st.2.1.set rgb.2.1 (st.2.1.getD rgb.2.1 0 + 1),
       st.2.2.1.set rgb.2.2 (st.2.2.1.getD rgb.2.2 0 + 1),
       st.2.2.2 + 1)) st)
    (List.replicate 256 0, List.replicate 256 0, List.replicate 256 0, 0)
  ⟨st.1, st.2.1, st.2.2.1, st.2.2.2⟩

/-- `buildCDF` from the source: running cumulative sum divided by the total. -/
def buildCDF (histogram : List ℚ) (totalPixels : ℚ) : List ℚ :=
  ((List.range 256).foldl (fun (st : List ℚ × ℚ) i =>
    let cumsum := st.2 + histogram.getD i 0
    (st.1.set i (cumsum / totalPixels), cumsum)) (List.replicate 256 0, 0)).1

/-- One step of the nearest-CDF scan in `createHistogramMapping`: update
`(bestMatch, bestDiff)` on a strictly smaller distance. -/
def histScanStep (targetCDF : List ℚ) (srcCdfVal : ℚ) (best : Nat × ℚ)
    (tgtVal : Nat) : Nat × ℚ :=
  if |targetCDF.getD tgtVal 0 - srcCdfVal| < best.2
  then (tgtVal, |targetCDF.getD tgtVal 0 - srcCdfVal|) else best

/-- The inner loop of `createHistogramMapping`: scan target values `1..255`
starting from candidate `0`. -/
def bestTarget (targetCDF : List ℚ) (srcCdfVal : ℚ) : Nat × ℚ :=
  (List.range' 1 255).foldl (histScanStep targetCDF srcCdfVal)
    (0, |targetCDF.getD 0 0 - srcCdfVal|)

/-- `createHistogramMapping` from the source: for each source value pick the
target value with strictly smallest CDF distance (first minimum wins). -/
def createHistogramMapping (sourceCDF targetCDF : List ℚ) : List ℚ :=
  (List.range 256).foldl (fun mapping srcVal =>
    mapping.set srcVal ((bestTarget targetCDF (sourceCDF.getD srcVal 0)).1 : ℚ))
    (List.replicate 256 0)

/-- `matchHistograms` from the source: per-channel CDF remapping of `source`
toward `target`'s distribution. -/
def matchHistograms (source target : List (List String)) : List (List String) :=
  let sourceHist := extractHistogram source
  let targetHist := extractHistogram target
  let mappingR := createHistogramMapping (buildCDF sourceHist.r sourceHist.totalPixels)
    (buildCDF targetHist.r targetHist.totalPixels)
  let mappingG := createHistogramMapping (buildCDF sourceHist.g sourceHist.totalPixels)
    (buildCDF targetHist.g targetHist.totalPixels)
  let mappingB := createHistogramMapping (buildCDF sourceHist.b sourceHist.totalPixels)
    (buildCDF targetHist.b targetHist.totalPixels)
  source.map (fun row => row.map (fun pixel =>
    let rgb := hexToRgb pixel
    rgbToHex (mappingR.getD rgb.1 0) (mappingG.getD rgb.2.1 0)
      (mappingB.getD rgb.2.2 0)))

/-- A parsed color as a rational RGB triple. -/
def rgb3 (t : Nat × Nat × Nat) : ℚ × ℚ × ℚ := ((t.1 : ℚ), (t.2.1 : ℚ), (t.2.2 : ℚ))

/-- Squared Euclidean RGB distance (`Math.pow(...,2)` sums in the source). -/
def sqDist (a b : ℚ × ℚ × ℚ) : ℚ :=
  (a.1 - b.1) ^ 2 + (a.2.1 - b.2.1) ^ 2 + (a.2.2 - b.2.2) ^ 2

/-- The nearest-centroid scan shared by the k-means loops: `bestCluster = 0`,
`bestDist = Infinity` (modelled as `⊤`), strict improvement wins. -/
def nearestCentroidIdx (centroids : List (ℚ × ℚ × ℚ)) (pixel : ℚ × ℚ × ℚ) : Nat :=
  ((List.range centroids.length).foldl (fun (best : Nat × WithTop ℚ) c =>
    let dist := sqDist pixel (centroids.getD c (0, 0, 0))
    if (dist : WithTop ℚ) < best.2 then (c, (dist : WithTop ℚ)) else best)
    (0, (⊤ : WithTop ℚ))).1

/-- Distribute the pixels over the centroids (the cluster-assignment phase of
one k-means iteration; pushes keep pixel order). -/
def assignClusters (centroids : List (ℚ × ℚ × ℚ)) (pixels : List (ℚ × ℚ × ℚ)) :
    List (List (ℚ × ℚ × ℚ)) :=
  pixels.foldl (fun clusters pixel =>
    let best := nearestCentroidIdx centroids pixel
    clusters.set best (clusters.getD best [] ++ [pixel]))
    (centroids.map (fun _ => []))

/-- One k-means iteration as written (identically) in `extractPalette` and
`findSharedPalette`: assign pixels, then move each centroid to the rounded
mean of its cluster, keeping the previous centroid for an empty cluster. -/
def kmeansStep (centroids : List (ℚ × ℚ × ℚ)) (pixels : List (ℚ × ℚ × ℚ)) :
    List (ℚ × ℚ × ℚ) :=
  let clusters := assignClusters centroids pixels
  (List.range centroids.length).map (fun i =>
    let cluster := clusters.getD i []
    if cluster.length = 0 then centroids.getD i (0, 0, 0)
    else
      let sum := cluster.foldl (fun (acc : ℚ × ℚ × ℚ) p =>
        (acc.1 + p.1, acc.2.1 + p.2.1, acc.2.2 + p.2.2)) (0, 0, 0)
      ((jsRound (sum.1 / cluster.length) : ℚ),
       (jsRound (sum.2.1 / cluster.length) : ℚ),
       (jsRound (sum.2.2 / cluster.length) : ℚ)))

/-- `colorCounts.set(pixel, (colorCounts.get(pixel) || 0) + 1)` on a JS `Map`:
update in place when the key exists, append otherwise (insertion order kept). -/
def mapIncr (m : List (String × ℚ)) (k : String) : List (String × ℚ) :=
  if m.any (fun kv => kv.1 = k) then
    m.map (fun kv => if kv.1 = k then (kv.1, kv.2 + 1) else kv)
  else m ++ [(k, 1)]

/-- The descending frequency order of `sort((a, b) => b[1] - a[1])`. -/
def countGE (a b : String × ℚ) : Prop := b.2 ≤ a.2

instance countGE.decRel : DecidableRel countGE :=
  fun a b => inferInstanceAs (Decidable (b.2 ≤ a.2))

instance countGE.total : IsTotal (String × ℚ) countGE :=
  ⟨fun a b => (le_total b.2 a.2).imp id id⟩

instance countGE.trans : IsTrans (String × ℚ) countGE :=
  ⟨fun _ _ _ h1 h2 => le_trans h2 h1⟩

/-- `extractPalette` from the source: all unique colors when there are at most
`paletteSize` of them, otherwise 10 k-means passes from the most frequent
colors. -/
def extractPalette (image : List (List String)) (paletteSize : Nat) : List String :=
  let colorCounts := image.foldl (fun m row => row.foldl mapIncr m) []
  let uniqueColors := colorCounts.map (fun kv => kv.1)
  if uniqueColors.length ≤ paletteSize then uniqueColors
  else
    let sortedByFreq := (List.insertionSort countGE colorCounts).map (fun kv => kv.1)
    let centroids0 := (sortedByFreq.take paletteSize).map (fun hex => rgb3 (hexToRgb hex))
    let allPixels := image.flatMap (fun row => row.map (fun pixel => rgb3 (hexToRgb pixel)))
    let final := (List.range 10).foldl (fun cs _ => kmeansStep cs allPixels) centroids0
    final.map (fun c => rgbToHex c.1 c.2.1 c.2.2)

/-- `findSharedPalette` from the source: re-cluster the concatenation of the
two per-image palettes. -/
def findSharedPalette (imageA imageB : List (List String)) (paletteSize : Nat) :
    List String :=
  let paletteA := extractPalette imageA paletteSize
  let paletteB := extractPalette imageB paletteSize
  let allColors := paletteA ++ paletteB
  let centroids0 := (allColors.take paletteSize).map (fun hex => rgb3 (hexToRgb hex))
  let allRgb := allColors.map (fun hex => rgb3 (hexToRgb hex))
  let final := (List.range 10).foldl (fun cs _ => kmeansStep cs allRgb) centroids0
  final.map (fun c => rgbToHex c.1 c.2.1 c.2.2)

/-- `remapToPalette` from the source: every pixel replaced by its nearest
palette color (squared distance, first strict improvement wins, starting from
`palette[0]` with `bestDist = Infinity`). -/
def remapToPalette (image : List (List String)) (palette : List String) :
    List (List String) :=
  let paletteRgb := palette.map (fun hex => rgb3 (hexToRgb hex))
  image.map (fun row => row.map (fun pixel =>
    let p := rgb3 (hexToRgb pixel)
    ((List.range paletteRgb.length).foldl (fun (best : String × WithTop ℚ) i =>
      let dist := sqDist p (paletteRgb.getD i (0, 0, 0))
      if (dist : WithTop ℚ) < best.2 then (palette.getD i "", (dist : WithTop ℚ))
      else best) (palette.getD 0 "", (⊤ : WithTop ℚ))).1))

/-- Total luminance and pixel count of an image (the two accumulators of the
`normalizeLuminance` loops). -/
def lumSum (image : List (List String)) : ℚ × ℚ :=
  image.foldl (fun st row => row.foldl (fun (st : ℚ × ℚ) pixel =>
    let rgb := hexToRgb pixel
    (st.1 + getLuminance (rgb.1 : ℚ) (rgb.2.1 : ℚ) (rgb.2.2 : ℚ), st.2 + 1)) st)
    ((0 : ℚ), (0 : ℚ))

/-- `normalizeLuminance` from the source: scale each image's channels by
`targetLum / ownAverage`, capped at 255 before re-encoding. -/
def normalizeLuminance (imageA imageB : List (List String)) :
    List (List String) × List (List String) :=
  let a := lumSum imageA
  let b := lumSum imageB
  let avgLumA := a.1 / a.2
  let avgLumB := b.1 / b.2
  let targetLum := (avgLumA + avgLumB) / 2
  let adjustImage := fun (image : List (List String)) (currentAvg : ℚ) =>
    let factor := targetLum / currentAvg
    image.map (fun row => row.map (fun pixel =>
      let rgb := hexToRgb pixel
      rgbToHex (min 255 ((rgb.1 : ℚ) * factor)) (min 255 ((rgb.2.1 : ℚ) * factor))
        (min 255 ((rgb.2.2 : ℚ) * factor))))
  (adjustImage imageA avgLumA, adjustImage imageB avgLumB)

/-- The `method` field of `NormalizationOptions` (a TS union type). -/
inductive NormMethod
  | histogram
  | palette
  | luminance
deriving DecidableEq

/-- `NormalizationOptions` from the source (`paletteSize` optional). -/
structure NormalizationOptions where
  method : NormMethod
  paletteSize : Option Nat

/-- `matchImagesWithNormalization` from the source.  In the palette branch
`options.paletteSize || 8` is falsy-defaulting: both a missing size and an
explicit `0` give 8. -/
noncomputable def matchImagesWithNormalization (imageA imageB : List (List String))
    (gridSize : Nat) (options : NormalizationOptions) : MatchResult :=
  match options.method with
  | NormMethod.histogram =>
    matchImages (matchHistograms imageA imageB) (matchHistograms imageB imageA) gridSize
  | NormMethod.palette =>
    let paletteSize := match options.paletteSize with
      | Option.none => 8
      | Option.some k => if k = 0 then 8 else k
    let sharedPalette := findSharedPalette imageA imageB paletteSize
    matchImages (remapToPalette imageA sharedPalette)
      (remapToPalette imageB sharedPalette) gridSize
  | NormMethod.luminance =>
    let lumResult := normalizeLuminance imageA imageB
    matchImages lumResult.1 lumResult.2 gridSize

/-- The `recommendedMethod` union type of `analyzeMatchQuality`. -/
inductive RecMethod
  | none
  | histogram
  | palette
  | luminance
deriving DecidableEq

/-- The result record of `analyzeMatchQuality`. -/
structure AnalyzeResult where
  rawSimilarity : ℝ
  histogramSimilarity : ℝ
  paletteSimilarity : ℝ
  recommendedMethod : RecMethod

/-- `analyzeMatchQuality` from the source: run raw, histogram and palette
matching at `gridSize = 3`, then `scores.reduce((a, b) => a.score > b.score ? a : b)`
to pick the recommendation. -/
noncomputable def analyzeMatchQuality (imageA imageB : List (List String)) :
    AnalyzeResult :=
  let rawResult := matchImages imageA imageB 3
  let histResult := matchImagesWithNormalization imageA imageB 3
    ⟨NormMethod.histogram, Option.none⟩
  let paletteResult := matchImagesWithNormalization imageA imageB 3
    ⟨NormMethod.palette, Option.some 8⟩
  let best := List.foldl (fun (a b : RecMethod × ℝ) => if a.2 > b.2 then a else b)
    (RecMethod.none, rawResult.totalSimilarity)
    [(RecMethod.histogram, histResult.totalSimilarity),
     (RecMethod.palette, paletteResult.totalSimilarity)]
  ⟨rawResult.totalSimilarity, histResult.totalSimilarity,
    paletteResult.totalSimilarity, best.1⟩

/-- A rectangular image whose first row fixes the width. -/
def Rectangular (image : List (List String)) : Prop :=
  ∀ row ∈ image, row.length = (image.getD 0 []).length

/-- Every pixel is a valid `#RRGGBB` string. -/
def ValidPixels (image : List (List String)) : Prop :=
  ∀ row ∈ image, ∀ px ∈ row, isValidHex px = true

instance : DecidablePred Rectangular := fun image =>
  inferInstanceAs (Decidable (∀ row ∈ image, row.length = (image.getD 0 []).length))

instance : DecidablePred ValidPixels := fun image =>
  inferInstanceAs (Decidable (∀ row ∈ image, ∀ px ∈ row, isValidHex px = true))

/-- Invariant of the greedy scan: the assignment list has length `n`, the used
column set is a subset of `[0,n)`, assigned rows hold used columns, every used
column is held by some row, and no two rows hold the same column. -/
def greedyInv (n : Nat) (st : List ℤ × Finset Nat) : Prop :=
  st.1.length = n ∧
  (∀ j ∈ st.2, j < n) ∧
  (∀ k, k < n → st.1.getD k 0 = -1 ∨ ∃ j ∈ st.2, st.1.getD k 0 = (j : ℤ)) ∧
  (∀ j ∈ st.2, ∃ k, k < n ∧ st.1.getD k 0 = (j : ℤ)) ∧
  (∀ k₁ k₂, k₁ < n → k₂ < n → st.1.getD k₁ 0 ≠ -1 →
    st.1.getD k₁ 0 = st.1.getD k₂ 0 → k₁ = k₂)

/-- The greedy state assigns exactly the rows in `S`, each to its own index:
the reachable states while the solver walks a run of diagonal pairs. -/
def isIdOn (n : Nat) (S : Finset Nat) (st : List ℤ × Finset Nat) : Prop :=
  st.1.length = n ∧ st.2 = S ∧ S ⊆ Finset.range n ∧
  ∀ k, k < n → st.1.getD k 0 = if k ∈ S then (k : ℤ) else -1

/-- Row `i` of the `allSimPairs` enumeration restricted to the pairs whose
similarity is exactly `v` (column order preserved). -/
def rowFiltered {α : Type} [Inhabited α] [DecidableEq α] (M : List (List α))
    (v : α) (i : Nat) : List (SimPair α) :=
  ((List.range M.length).filter
      (fun j => decide ((M.getD i []).getD j default = v))).map
    (fun j => ⟨i, j, (M.getD i []).getD j default⟩)

/-- The all-black 3×3 test image used to exhibit an exact three-way score tie
in `analyzeMatchQuality`. -/
def blackImage3 : List (List String) :=
  List.replicate 3 (List.replicate 3 "#000000")

/-! ## Supporting list lemmas -/

theorem getD_set_self {α : Type} (l : List α) (i : Nat) (a d : α)
    (h : i < l.length) : (l.set i a).getD i d = a := by
  rw [List.getD_eq_getElem?_getD, List.getElem?_set, if_pos rfl, if_pos h,
    Option.getD_some]

theorem getD_set_ne {α : Type} (l : List α) {i j : Nat} (h : i ≠ j) (a d : α) :
    (l.set i a).getD j d = l.getD j d := by
  rw [List.getD_eq_getElem?_getD, List.getElem?_set, if_neg h,
    ← List.getD_eq_getElem?_getD]

theorem getD_replicate {α : Type} {n k : Nat} (a d : α) (h : k < n) :
    (List.replicate n a).getD k d = a := by
  have hk : k < (List.replicate n a).length := by
    rw [List.length_replicate]; exact h
  rw [List.getD_eq_getElem _ _ hk, List.getElem_replicate]

theorem ext_getD {α : Type} {l₁ l₂ : List α} (d : α) (hlen : l₁.length = l₂.length)
    (h : ∀ k, k < l₁.length → l₁.getD k d = l₂.getD k d) : l₁ = l₂ := by
  refine List.ext_getElem hlen (fun n h₁ h₂ => ?_)
  have := h n h₁
  rwa [List.getD_eq_getElem _ _ h₁, List.getD_eq_getElem _ _ h₂] at this

theorem set_getD_self {α : Type} (l : List α) (i : Nat) (d : α) :
    l.set i (l.getD i d) = l := by
  refine ext_getD d (by rw [List.length_set]) (fun k hk => ?_)
  rw [List.length_set] at hk
  by_cases hik : i = k
  · subst hik
    rcases Nat.lt_or_ge i l.length with hi | hi
    · rw [getD_set_self _ _ _ _ hi]
    · rw [List.set_eq_of_length_le hi]
  · rw [getD_set_ne _ hik]

theorem getD_append_left {α : Type} {l₁ l₂ : List α} {k : Nat}
    (h : k < l₁.length) (d : α) : (l₁ ++ l₂).getD k d = l₁.getD k d := by
  rw [List.getD_eq_getElem?_getD, List.getElem?_append_left h,
    ← List.getD_eq_getElem?_getD]

theorem getD_append_right {α : Type} {l₁ l₂ : List α} {k : Nat}
    (h : l₁.length ≤ k) (d : α) :
    (l₁ ++ l₂).getD k d = l₂.getD (k - l₁.length) d := by
  rw [List.getD_eq_getElem?_getD, List.getElem?_append_right h,
    ← List.getD_eq_getElem?_getD]

theorem getD_map_range {β : Type} {n k : Nat} (h : k < n) (f : Nat → β) (d : β) :
    ((List.range n).map f).getD k d = f k := by
  have hk : k < ((List.range n).map f).length := by
    rw [List.length_map, List.length_range]; exact h
  rw [List.getD_eq_getElem _ _ hk, List.getElem_map, List.getElem_range]

theorem length_flatMap_const {β : Type} (g L : Nat) (f : Nat → List β)
    (hf : ∀ i, i < g → (f i).length = L) :
    ((List.range g).flatMap f).length = g * L := by
  induction g with
  | zero => simp
  | succ g ih =>
    rw [List.range_succ, List.flatMap_append, List.length_append,
      ih (fun i hi => hf i (Nat.lt_succ_of_lt hi))]
    simp [hf g (Nat.lt_succ_self g), Nat.succ_mul]

theorem getD_flatMap_range {β : Type} {g L : Nat} (f : Nat → List β)
    (hf : ∀ i, i < g → (f i).length = L) {q r : Nat} (hq : q < g) (hr : r < L)
    (d : β) : ((List.range g).flatMap f).getD (q * L + r) d = (f q).getD r d := by
  induction g with
  | zero => exact absurd hq (Nat.not_lt_zero q)
  | succ g ih =>
    rw [List.range_succ, List.flatMap_append]
    rcases Nat.lt_succ_iff_lt_or_eq.mp hq with hqg | hqg
    · have hidx : q * L + r < ((List.range g).flatMap f).length := by
        rw [length_flatMap_const g L f (fun i hi => hf i (Nat.lt_succ_of_lt hi))]
        calc q * L + r < q * L + L := by exact Nat.add_lt_add_left hr _
        _ = (q + 1) * L := by rw [Nat.succ_mul]
        _ ≤ g * L := Nat.mul_le_mul_right L hqg
      rw [getD_append_left hidx, ih (fun i hi => hf i (Nat.lt_succ_of_lt hi)) hqg]
    · subst hqg
      have hlen : ((List.range q).flatMap f).length = q * L :=
        length_flatMap_const q L f (fun i hi => hf i (Nat.lt_succ_of_lt hi))
      rw [getD_append_right (by rw [hlen]; exact Nat.le_add_right _ _), hlen]
      simp [hf q (Nat.lt_succ_self q)]

/-! ## C10: swapTiles -/

theorem swapTiles_length (arrangement : List String) (indexA indexB : Nat) :
    (swapTiles arrangement indexA indexB).length = arrangement.length := by
  simp [swapTiles]

theorem swapTiles_getD_frame (arrangement : List String) (indexA indexB k : Nat)
    (hkA : k ≠ indexA) (hkB : k ≠ indexB) :
    (swapTiles arrangement indexA indexB).getD k "" = arrangement.getD k "" := by
  unfold swapTiles
  rw [getD_set_ne _ (Ne.symm hkB), getD_set_ne _ (Ne.symm hkA)]

theorem swapTiles_getD_left (arrangement : List String) (indexA indexB : Nat)
    (hA : indexA < arrangement.length) :
    (swapTiles arrangement indexA indexB).getD indexA "" =
      arrangement.getD indexB "" := by
  unfold swapTiles
  by_cases hAB : indexB = indexA
  · subst hAB
    rw [getD_set_self _ _ _ _ (by rw [List.length_set]; exact hA)]
  · rw [getD_set_ne _ hAB, getD_set_self _ _ _ _ hA]

theorem swapTiles_getD_right (arrangement : List String) (indexA indexB : Nat)
    (hB : indexB < arrangement.length) :
    (swapTiles arrangement indexA indexB).getD indexB "" =
      arrangement.getD indexA "" := by
  unfold swapTiles
  rw [getD_set_self _ _ _ _ (by rw [List.length_set]; exact hB)]

theorem swapTiles_involutive (arrangement : List String) (indexA indexB : Nat)
    (hA : indexA < arrangement.length) (hB : indexB < arrangement.length) :
    swapTiles (swapTiles arrangement indexA indexB) indexA indexB = arrangement := by
  have hA' : indexA < (swapTiles arrangement indexA indexB).length := by
    rw [swapTiles_length]; exact hA
  have hB' : indexB < (swapTiles arrangement indexA indexB).length := by
    rw [swapTiles_length]; exact hB
  refine ext_getD "" (by rw [swapTiles_length, swapTiles_length]) (fun k hk => ?_)
  by_cases hkA : k = indexA
  · subst hkA
    rw [swapTiles_getD_left _ _ _ hA', swapTiles_getD_right _ _ _ hB]
  · by_cases hkB : k = indexB
    · subst hkB
      rw [swapTiles_getD_right _ _ _ hB', swapTiles_getD_left _ _ _ hA]
    · rw [swapTiles_getD_frame _ _ _ _ hkA hkB, swapTiles_getD_frame _ _ _ _ hkA hkB]

/-- C10: for valid indices, `swapTiles` returns a new array that keeps every
position other than `indexA`/`indexB`, holds the input's `indexB` entry at
`indexA` and the input's `indexA` entry at `indexB`, and applying the same
swap twice restores the original arrangement (the input itself is never
mutated: the model, like the source's array spread, builds a fresh list). -/
theorem C10_swapTiles (arrangement : List String) (indexA indexB : Nat)
    (hA : indexA < arrangement.length) (hB : indexB < arrangement.length) :
    (swapTiles arrangement indexA indexB).length = arrangement.length ∧
    (∀ k, k ≠ indexA → k ≠ indexB →
      (swapTiles arrangement indexA indexB).getD k "" = arrangement.getD k "") ∧
    (swapTiles arrangement indexA indexB).getD indexA "" = arrangement.getD indexB "" ∧
    (swapTiles arrangement indexA indexB).getD indexB "" = arrangement.getD indexA "" ∧
    swapTiles (swapTiles arrangement indexA indexB) indexA indexB = arrangement :=
  ⟨swapTiles_length arrangement indexA indexB,
   fun k hkA hkB => swapTiles_getD_frame arrangement indexA indexB k hkA hkB,
   swapTiles_getD_left arrangement indexA indexB hA,
   swapTiles_getD_right arrangement indexA indexB hB,
   swapTiles_involutive arrangement indexA indexB hA hB⟩

theorem C10_witness :
    0 < 3 ∧ 2 < 3 ∧
    ((swapTiles ["x", "y", "z"] 0 2).length = 3 ∧
     (∀ k, k ≠ 0 → k ≠ 2 →
       (swapTiles ["x", "y", "z"] 0 2).getD k "" = (["x", "y", "z"]).getD k "") ∧
     (swapTiles ["x", "y", "z"] 0 2).getD 0 "" = (["x", "y", "z"]).getD 2 "" ∧
     (swapTiles ["x", "y", "z"] 0 2).getD 2 "" = (["x", "y", "z"]).getD 0 "" ∧
     swapTiles (swapTiles ["x", "y", "z"] 0 2) 0 2 = ["x", "y", "z"]) :=
  ⟨by decide, by decide, C10_swapTiles ["x", "y", "z"] 0 2 (by decide) (by decide)⟩

/-! ## C6: extractTiles -/

/-- C6: for a non-empty rectangular `h × w` image and `1 ≤ gridSize ≤ min h w`,
`extractTiles` returns exactly `gridSize²` tiles in row-major order, each of
size `⌊h/gridSize⌋ × ⌊w/gridSize⌋`, the tile at row-major index
`tileRow * gridSize + tileCol` reading the image block starting at row
`tileRow * ⌊h/gridSize⌋`, column `tileCol * ⌊w/gridSize⌋` (leftover bottom
rows and rightmost columns are silently dropped). -/
theorem C6_extractTiles (image : List (List String)) (gridSize : Nat)
    (hrect : Rectangular image) (hg : 1 ≤ gridSize)
    (hgh : gridSize ≤ image.length) (hgw : gridSize ≤ (image.getD 0 []).length) :
    (extractTiles image gridSize).length = gridSize * gridSize ∧
    (∀ t ∈ extractTiles image gridSize,
      t.length = image.length / gridSize ∧
      ∀ row ∈ t, row.length = (image.getD 0 []).length / gridSize) ∧
    (∀ tileRow tileCol r c, tileRow < gridSize → tileCol < gridSize →
      r < image.length / gridSize → c < (image.getD 0 []).length / gridSize →
      (((extractTiles image gridSize).getD (tileRow * gridSize + tileCol) []).getD
          r []).getD c "" =
        (image.getD (tileRow * (image.length / gridSize) + r) []).getD
          (tileCol * ((image.getD 0 []).length / gridSize) + c) "") := by
  refine ⟨?_, ?_, ?_⟩
  · simp only [extractTiles]
    exact length_flatMap_const _ _ _ (fun i _ => by simp)
  · intro t ht
    simp only [extractTiles, List.mem_flatMap, List.mem_map, List.mem_range] at ht
    obtain ⟨tileRow, _, tileCol, _, rfl⟩ := ht
    constructor
    · simp
    · intro row hrow
      simp only [List.mem_map, List.mem_range] at hrow
      obtain ⟨r, _, rfl⟩ := hrow
      simp
  · intro tileRow tileCol r c htr htc hr hc
    have h1 : (extractTiles image gridSize).getD (tileRow * gridSize + tileCol) [] =
        (List.range (image.length / gridSize)).map (fun r =>
          (List.range ((image.getD 0 []).length / gridSize)).map (fun c =>
            (image.getD (tileRow * (image.length / gridSize) + r) []).getD
              (tileCol * ((image.getD 0 []).length / gridSize) + c) "")) := by
      simp only [extractTiles]
      rw [getD_flatMap_range _ (fun i _ => by simp) htr htc, getD_map_range htc]
    rw [h1, getD_map_range hr, getD_map_range hc]

theorem C6_witness :
    Rectangular [["a", "b"], ["c", "d"]] ∧ 1 ≤ 2 ∧ 2 ≤ 2 ∧
    ((extractTiles [["a", "b"], ["c", "d"]] 2).length = 2 * 2 ∧
     (∀ t ∈ extractTiles [["a", "b"], ["c", "d"]] 2,
       t.length = ([["a", "b"], ["c", "d"]] : List (List String)).length / 2 ∧
       ∀ row ∈ t, row.length =
         (([["a", "b"], ["c", "d"]] : List (List String)).getD 0 []).length / 2) ∧
     (∀ tileRow tileCol r c, tileRow < 2 → tileCol < 2 →
       r < ([["a", "b"], ["c", "d"]] : List (List String)).length / 2 →
       c < (([["a", "b"], ["c", "d"]] : List (List String)).getD 0 []).length / 2 →
       (((extractTiles [["a", "b"], ["c", "d"]] 2).getD (tileRow * 2 + tileCol) []).getD
           r []).getD c "" =
         (([["a", "b"], ["c", "d"]] : List (List String)).getD
             (tileRow * (([["a", "b"], ["c", "d"]] : List (List String)).length / 2) + r)
             []).getD
           (tileCol * ((([["a", "b"], ["c", "d"]] : List (List String)).getD 0 []).length / 2)
             + c) "")) :=
  ⟨by decide, by decide, by decide,
   C6_extractTiles [["a", "b"], ["c", "d"]] 2 (by decide) (by decide) (by decide)
     (by decide)⟩

/-! ## C8: dimension mismatch -/

/-- C8: whenever the two tiles have different row counts, or different column
counts in the first row, `tileSimilarity` returns exactly `0` (no error, no
pixel is inspected: the result is `0` for arbitrary pixel contents). -/
theorem C8_tileSimilarity_mismatch (tileA tileB : List (List String))
    (h : tileA.length ≠ tileB.length ∨
      (tileA.getD 0 []).length ≠ (tileB.getD 0 []).length) :
    tileSimilarity tileA tileB = 0 := by
  unfold tileSimilarity
  rw [if_pos h]

theorem C8_witness :
    ((([["not even a color"]] : List (List String)).length ≠
        ([] : List (List String)).length ∨
      (([["not even a color"]] : List (List String)).getD 0 []).length ≠
        (([] : List (List String)).getD 0 []).length) ∧
     tileSimilarity [["not even a color"]] [] = 0) :=
  ⟨Or.inl (by decide), C8_tileSimilarity_mismatch [["not even a color"]] []
    (Or.inl (by decide))⟩

/-! ## C4: self-similarity is exactly 1 -/

theorem pixelDiff_self (px : String) : pixelDiff px px = 0 := by
  unfold pixelDiff
  simp [sub_self]

theorem pixelDiff_nonneg (pxA pxB : String) : 0 ≤ pixelDiff pxA pxB :=
  Real.sqrt_nonneg _

theorem foldl_fst_const {β : Type} (f : ℝ × ℝ → β → ℝ × ℝ)
    (h : ∀ st c, (f st c).1 = st.1) :
    ∀ (l : List β) (st : ℝ × ℝ), (l.foldl f st).1 = st.1
  | [], _ => rfl
  | c :: l, st => by
    rw [List.foldl_cons, foldl_fst_const f h l (f st c), h]

theorem tileSimAcc_self_fst (t : List (List String)) : (tileSimAcc t t).1 = 0 := by
  unfold tileSimAcc
  exact foldl_fst_const _
    (fun st r => foldl_fst_const _ (fun st c => by rw [pixelDiff_self, add_zero]) _ _)
    _ _

theorem tileSimilarity_self (t : List (List String)) : tileSimilarity t t = 1 := by
  unfold tileSimilarity
  rw [if_neg (by simp), tileSimAcc_self_fst]
  norm_num

/-- C4: for every non-empty rectangular tile of valid `#RRGGBB` pixels,
`tileSimilarity(t, t)` is exactly `1` (the hypotheses delimit the domain on
which the JS code is defined and `NaN`-free; the per-pixel distances are all
exactly `√0 = 0`). -/
theorem C4_tileSimilarity_self (t : List (List String))
    (hne : t.length ≠ 0) (hw : (t.getD 0 []).length ≠ 0)
    (hrect : ∀ row ∈ t, row.length = (t.getD 0 []).length)
    (hvalid : ∀ row ∈ t, ∀ px ∈ row, isValidHex px = true) :
    tileSimilarity t t = 1 :=
  tileSimilarity_self t

theorem C4_witness :
    (([["#1a2b3c"]] : List (List String)).length ≠ 0 ∧
     ((([["#1a2b3c"]] : List (List String)).getD 0 []).length ≠ 0) ∧
     tileSimilarity [["#1a2b3c"]] [["#1a2b3c"]] = 1) :=
  ⟨by decide, by decide,
   C4_tileSimilarity_self [["#1a2b3c"]] (by decide) (by decide)
     (by decide) (by decide)⟩

/-! ## C3: the claimed range `[0,1]` fails (code bug) -/

theorem hexToRgb_black : hexToRgb "#000000" = (0, 0, 0) := by decide

theorem hexToRgb_white : hexToRgb "#ffffff" = (255, 255, 255) := by decide

theorem pixelDiff_black_white :
    pixelDiff "#000000" "#ffffff" = Real.sqrt 195075 := by
  unfold pixelDiff
  rw [hexToRgb_black, hexToRgb_white]
  norm_num

/-- C3 (code bug exhibit): on the 1×1 black tile against the 1×1 white tile,
`tileSimilarity` is `1 - √195075 / 441.67 < 0`, strictly below the `[0,1]`
range promised by the spec and by the function's own doc comment — the
normalizing constant `441.67` truncates `√(3·255²) ≈ 441.673`. -/
theorem C3_negative_similarity :
    tileSimilarity [["#000000"]] [["#ffffff"]] < 0 := by
  have hacc : tileSimAcc [["#000000"]] [["#ffffff"]] =
      (Real.sqrt 195075, 1) := by
    unfold tileSimAcc
    simp [List.range_succ, pixelDiff_black_white]
  have hs : (441.67 : ℝ) < Real.sqrt 195075 :=
    (Real.lt_sqrt (by norm_num)).mpr (by norm_num)
  unfold tileSimilarity
  rw [if_neg (by simp), hacc]
  dsimp only
  rw [div_one, sub_neg, one_lt_div (by norm_num : (0 : ℝ) < 441.67)]
  exact hs

/-! ## C9: hexToRgb / rgbToHex round trip and clamping -/

set_option maxRecDepth 20000

theorem hexByte_spec : ∀ n, n < 256 →
    (padStart2 (Nat.toDigits 16 n)).length = 2 ∧
    parseHex2 (padStart2 (Nat.toDigits 16 n)) = n := by decide

theorem jsRound_clamp_natCast (m : Nat) (hm : m ≤ 255) :
    (jsRound (clamp255 (m : ℚ))).toNat = m := by
  have h1 : clamp255 (m : ℚ) = (m : ℚ) := by
    unfold clamp255
    rw [min_eq_right (by exact_mod_cast hm), max_eq_right (by positivity)]
  have h2 : jsRound (m : ℚ) = (m : ℤ) := by
    unfold jsRound
    rw [Int.floor_eq_iff]
    constructor
    · push_cast
      linarith
    · push_cast
      linarith
  rw [h1, h2, Int.toNat_natCast]

theorem hexToRgb_of_bytes (b1 b2 b3 : List Char) (h1 : b1.length = 2)
    (h2 : b2.length = 2) (h3 : b3.length = 2) :
    hexToRgb ⟨'#' :: (b1 ++ b2 ++ b3)⟩ =
      (parseHex2 b1, parseHex2 b2, parseHex2 b3) := by
  have hstrip : stripFirstHash ('#' :: (b1 ++ b2 ++ b3)) = b1 ++ b2 ++ b3 := by
    simp [stripFirstHash]
  have h12 : (b1 ++ b2).length = 4 := by rw [List.length_append, h1, h2]
  show (parseHex2 ((stripFirstHash ('#' :: (b1 ++ b2 ++ b3))).take 2),
    parseHex2 (((stripFirstHash ('#' :: (b1 ++ b2 ++ b3))).drop 2).take 2),
    parseHex2 (((stripFirstHash ('#' :: (b1 ++ b2 ++ b3))).drop 4).take 2)) = _
  rw [hstrip]
  rw [List.append_assoc b1 b2 b3]
  rw [List.take_left' h1, List.drop_left' h1, List.take_left' h2,
    ← List.append_assoc b1 b2 b3, List.drop_left' h12,
    List.take_of_length_le (le_of_eq h3)]

/-- C9: for every 8-bit triple, `hexToRgb (rgbToHex r g b)` recovers exactly
`(r, g, b)`, and `rgbToHex` clamps out-of-range channels:
`rgbToHex 300 (-50) 128 = "#ff0080"`. -/
theorem C9_hex_roundtrip :
    (∀ r g b : Nat, r ≤ 255 → g ≤ 255 → b ≤ 255 →
      hexToRgb (rgbToHex (r : ℚ) (g : ℚ) (b : ℚ)) = (r, g, b)) ∧
    rgbToHex 300 (-50) 128 = "#ff0080" := by
  constructor
  · intro r g b hr hg hb
    have er : toHexByte (r : ℚ) = padStart2 (Nat.toDigits 16 r) := by
      unfold toHexByte
      rw [jsRound_clamp_natCast r hr]
    have eg : toHexByte (g : ℚ) = padStart2 (Nat.toDigits 16 g) := by
      unfold toHexByte
      rw [jsRound_clamp_natCast g hg]
    have eb : toHexByte (b : ℚ) = padStart2 (Nat.toDigits 16 b) := by
      unfold toHexByte
      rw [jsRound_clamp_natCast b hb]
    unfold rgbToHex
    rw [er, eg, eb, hexToRgb_of_bytes _ _ _
      (hexByte_spec r (by omega)).1 (hexByte_spec g (by omega)).1
      (hexByte_spec b (by omega)).1,
      (hexByte_spec r (by omega)).2, (hexByte_spec g (by omega)).2,
      (hexByte_spec b (by omega)).2]
  · decide

theorem C9_witness :
    (255 : Nat) ≤ 255 ∧ (0 : Nat) ≤ 255 ∧ (128 : Nat) ≤ 255 ∧
    hexToRgb (rgbToHex ((255 : Nat) : ℚ) ((0 : Nat) : ℚ) ((128 : Nat) : ℚ)) =
      (255, 0, 128) :=
  ⟨by decide, by decide, by decide,
   C9_hex_roundtrip.1 255 0 128 (by decide) (by decide) (by decide)⟩

/-! ## C1: the greedy solver always returns a bijection -/

theorem mem_allSimPairs {α : Type} [Inhabited α] (M : List (List α)) (p : SimPair α) :
    p ∈ allSimPairs M ↔ p.i < M.length ∧ p.j < M.length ∧
      p.sim = (M.getD p.i []).getD p.j default := by
  unfold allSimPairs
  simp only [List.mem_flatMap, List.mem_map, List.mem_range]
  constructor
  · rintro ⟨i, hi, j, hj, rfl⟩
    exact ⟨hi, hj, rfl⟩
  · rintro ⟨hi, hj, hs⟩
    refine ⟨p.i, hi, p.j, hj, ?_⟩
    cases p with
    | mk i j s => simp only at hs ⊢; rw [hs]

theorem getD_eq_neg_one_of_set (l : List ℤ) (i j k : Nat)
    (h : (l.set i (j : ℤ)).getD k 0 = -1) : l.getD k 0 = -1 := by
  by_cases hik : i = k
  · subst hik
    by_cases hi : i < l.length
    · rw [getD_set_self _ _ _ _ hi] at h
      exact absurd h (by omega)
    · rwa [List.set_eq_of_length_le (le_of_not_lt hi)] at h
  · rwa [getD_set_ne _ hik] at h

theorem getD_out_of_range (l : List ℤ) (k : Nat) (h : l.length ≤ k) :
    l.getD k 0 = 0 := by
  rw [List.getD_eq_getElem?_getD, List.getElem?_eq_none h]
  rfl

theorem greedyInv_step {α : Type} (n : Nat) (p : SimPair α)
    (st : List ℤ × Finset Nat) (hInv : greedyInv n st) (hj : p.j < n) :
    greedyInv n (if st.1.getD p.i 0 = -1 ∧ p.j ∉ st.2 then
      (st.1.set p.i (p.j : ℤ), insert p.j st.2) else st) := by
  by_cases hc : st.1.getD p.i 0 = -1 ∧ p.j ∉ st.2
  · rw [if_pos hc]
    obtain ⟨h1, h2, h3, h4, h5⟩ := hInv
    have hpi : p.i < n := by
      by_contra hge
      push_neg at hge
      rw [getD_out_of_range st.1 p.i (h1 ▸ hge)] at hc
      exact absurd hc.1 (by norm_num)
    have hpilen : p.i < st.1.length := h1 ▸ hpi
    refine ⟨by rw [List.length_set]; exact h1, ?_, ?_, ?_, ?_⟩
    · intro j hjmem
      rcases Finset.mem_insert.mp hjmem with rfl | hmem
      · exact hj
      · exact h2 j hmem
    · intro k hk
      by_cases hki : p.i = k
      · subst hki
        exact Or.inr ⟨p.j, Finset.mem_insert_self _ _,
          getD_set_self _ _ _ _ hpilen⟩
      · rcases h3 k hk with hm | ⟨j, hjm, hv⟩
        · exact Or.inl (by rw [getD_set_ne _ hki]; exact hm)
        · exact Or.inr ⟨j, Finset.mem_insert_of_mem hjm,
            by rw [getD_set_ne _ hki]; exact hv⟩
    · intro j hjmem
      rcases Finset.mem_insert.mp hjmem with rfl | hmem
      · exact ⟨p.i, hpi, getD_set_self _ _ _ _ hpilen⟩
      · obtain ⟨k, hk, hv⟩ := h4 j hmem
        have hki : p.i ≠ k := by
          intro he
          rw [← he, hc.1] at hv
          omega
        exact ⟨k, hk, by rw [getD_set_ne _ hki]; exact hv⟩
    · intro k₁ k₂ hk₁ hk₂ hne heq
      by_cases hx₁ : p.i = k₁ <;> by_cases hx₂ : p.i = k₂
      · exact hx₁.symm.trans hx₂
      · exfalso
        rw [← hx₁, getD_set_self _ _ _ _ hpilen, getD_set_ne _ hx₂] at heq
        rcases h3 k₂ hk₂ with hm | ⟨j, hjm, hv⟩
        · rw [hm] at heq
          omega
        · rw [hv] at heq
          have : p.j = j := by exact_mod_cast heq
          exact hc.2 (this ▸ hjm)
      · exfalso
        rw [← hx₂, getD_set_self _ _ _ _ hpilen, getD_set_ne _ hx₁] at heq
        rcases h3 k₁ hk₁ with hm | ⟨j, hjm, hv⟩
        · rw [hm] at heq
          omega
        · rw [hv] at heq
          have : j = p.j := by exact_mod_cast heq
          exact hc.2 (this ▸ hjm)
      · rw [getD_set_ne _ hx₁, getD_set_ne _ hx₂] at heq
        rw [getD_set_ne _ hx₁] at hne
        exact h5 k₁ k₂ hk₁ hk₂ hne heq
  · rwa [if_neg hc]

theorem greedyInv_greedyAssign {α : Type} (n : Nat) :
    ∀ (L : List (SimPair α)) (st : List ℤ × Finset Nat), greedyInv n st →
      (∀ p ∈ L, p.j < n) → greedyInv n (greedyAssign n L st)
  | [], st, hInv, _ => hInv
  | p :: rest, st, hInv, hL => by
    simp only [greedyAssign]
    have hstep := greedyInv_step n p st hInv (hL p (List.mem_cons_self p rest))
    by_cases hcard : (if st.1.getD p.i 0 = -1 ∧ p.j ∉ st.2 then
        (st.1.set p.i (p.j : ℤ), insert p.j st.2) else st).2.card = n
    · rw [if_pos hcard]
      exact hstep
    · rw [if_neg hcard]
      exact greedyInv_greedyAssign n rest _ hstep
        (fun q hq => hL q (List.mem_cons_of_mem p hq))

theorem greedyInv_full (n : Nat) (st : List ℤ × Finset Nat)
    (hInv : greedyInv n st) (hcard : st.2.card = n) :
    ∀ k, k < n → st.1.getD k 0 ≠ -1 := by
  obtain ⟨h1, h2, h3, h4, h5⟩ := hInv
  classical
  set S := (Finset.range n).filter (fun k => st.1.getD k 0 ≠ -1) with hS
  have hmaps : ∀ j ∈ st.2, (if h : j ∈ st.2 then (h4 j h).choose else 0) ∈ S := by
    intro j hj
    rw [dif_pos hj]
    obtain ⟨hk, hv⟩ := (h4 j hj).choose_spec
    refine Finset.mem_filter.mpr ⟨Finset.mem_range.mpr hk, ?_⟩
    rw [hv]
    omega
  have hinj : Set.InjOn (fun j => if h : j ∈ st.2 then (h4 j h).choose else 0) st.2 := by
    intro j₁ hj₁ j₂ hj₂ he
    rw [Finset.mem_coe] at hj₁ hj₂
    simp only [dif_pos hj₁, dif_pos hj₂] at he
    obtain ⟨hk₁, hv₁⟩ := (h4 j₁ hj₁).choose_spec
    obtain ⟨hk₂, hv₂⟩ := (h4 j₂ hj₂).choose_spec
    rw [he, hv₂] at hv₁
    have : j₂ = j₁ := by exact_mod_cast hv₁
    exact this.symm
  have hcardle : st.2.card ≤ S.card := Finset.card_le_card_of_injOn _ hmaps hinj
  have hSsub : S ⊆ Finset.range n := Finset.filter_subset _ _
  have hSeq : S = Finset.range n :=
    Finset.eq_of_subset_of_card_le hSsub
      (by rw [Finset.card_range, ← hcard]; exact hcardle)
  intro k hk
  have hkS : k ∈ S := by
    rw [hSeq]
    exact Finset.mem_range.mpr hk
  exact (Finset.mem_filter.mp hkS).2

theorem greedyAssign_complete {α : Type} (n : Nat) :
    ∀ (L : List (SimPair α)) (st : List ℤ × Finset Nat), greedyInv n st →
      (∀ p ∈ L, p.j < n) →
      (∀ i j, i < n → j < n → st.1.getD i 0 = -1 → j ∉ st.2 →
        ∃ p ∈ L, p.i = i ∧ p.j = j) →
      ∀ i, i < n → (greedyAssign n L st).1.getD i 0 ≠ -1
  | [], st, hInv, _, hcover => by
    intro i hi hneg
    simp only [greedyAssign] at hneg
    by_cases hfull : ∀ j, j < n → j ∈ st.2
    · have hsub2 : st.2 ⊆ Finset.range n :=
        fun j hj => Finset.mem_range.mpr (hInv.2.1 j hj)
      have heq : st.2 = Finset.range n :=
        Finset.Subset.antisymm hsub2
          (fun j hj => hfull j (Finset.mem_range.mp hj))
      have hcard : st.2.card = n := by rw [heq, Finset.card_range]
      exact greedyInv_full n st hInv hcard i hi hneg
    · push_neg at hfull
      obtain ⟨j, hj, hnotmem⟩ := hfull
      obtain ⟨p, hp, _, _⟩ := hcover i j hi hj hneg hnotmem
      exact absurd hp (List.not_mem_nil p)
  | p :: rest, st, hInv, hL, hcover => by
    intro i hi
    simp only [greedyAssign]
    have hstep := greedyInv_step n p st hInv (hL p (List.mem_cons_self p rest))
    by_cases hcond : st.1.getD p.i 0 = -1 ∧ p.j ∉ st.2
    · rw [if_pos hcond] at hstep ⊢
      dsimp only
      by_cases hcard : (insert p.j st.2).card = n
      · rw [if_pos hcard]
        exact greedyInv_full n _ hstep hcard i hi
      · rw [if_neg hcard]
        refine greedyAssign_complete n rest _ hstep
          (fun q hq => hL q (List.mem_cons_of_mem p hq)) ?_ i hi
        intro i' j' hi' hj' hneg' hnot'
        have hnegold : st.1.getD i' 0 = -1 :=
          getD_eq_neg_one_of_set st.1 p.i p.j i' hneg'
        have hnotold : j' ∉ st.2 := fun hmem => hnot' (Finset.mem_insert_of_mem hmem)
        obtain ⟨q, hq, hqi, hqj⟩ := hcover i' j' hi' hj' hnegold hnotold
        rcases List.mem_cons.mp hq with rfl | hqrest
        · exfalso
          apply hnot'
          rw [← hqj]
          exact Finset.mem_insert_self q.j st.2
        · exact ⟨q, hqrest, hqi, hqj⟩
    · rw [if_neg hcond]
      by_cases hcard : st.2.card = n
      · rw [if_pos hcard]
        exact greedyInv_full n st hInv hcard i hi
      · rw [if_neg hcard]
        refine greedyAssign_complete n rest st hInv
          (fun q hq => hL q (List.mem_cons_of_mem p hq)) ?_ i hi
        intro i' j' hi' hj' hneg' hnot'
        obtain ⟨q, hq, hqi, hqj⟩ := hcover i' j' hi' hj' hneg' hnot'
        rcases List.mem_cons.mp hq with rfl | hqrest
        · exfalso
          apply hcond
          constructor
          · rw [hqi]
            exact hneg'
          · rw [hqj]
            exact hnot'
        · exact ⟨q, hqrest, hqi, hqj⟩

theorem greedyInv_init (n : Nat) : greedyInv n (List.replicate n (-1), ∅) := by
  refine ⟨List.length_replicate n (-1), by simp, ?_, by simp, ?_⟩
  · intro k hk
    exact Or.inl (getD_replicate _ _ hk)
  · intro k₁ k₂ hk₁ _ hne _
    exact absurd (getD_replicate _ _ hk₁) hne

theorem hungarian_perm {α : Type} [LinearOrder α] [Inhabited α]
    (M : List (List α)) :
    (hungarianAlgorithm M).length = M.length ∧
    (∀ k, k < M.length → ∃ j, j < M.length ∧
      (hungarianAlgorithm M).getD k 0 = (j : ℤ)) ∧
    (∀ k₁ k₂, k₁ < M.length → k₂ < M.length →
      (hungarianAlgorithm M).getD k₁ 0 = (hungarianAlgorithm M).getD k₂ 0 →
      k₁ = k₂) ∧
    (∀ j, j < M.length → ∃ k, k < M.length ∧
      (hungarianAlgorithm M).getD k 0 = (j : ℤ)) := by
  classical
  have hperm := List.perm_insertionSort pairLE (allSimPairs M)
  have hLj : ∀ p ∈ List.insertionSort pairLE (allSimPairs M), p.j < M.length :=
    fun p hp => ((mem_allSimPairs M p).mp (hperm.mem_iff.mp hp)).2.1
  have hcover : ∀ i j, i < M.length → j < M.length →
      (List.replicate M.length (-1 : ℤ), (∅ : Finset Nat)).1.getD i 0 = -1 →
      j ∉ (List.replicate M.length (-1 : ℤ), (∅ : Finset Nat)).2 →
      ∃ p ∈ List.insertionSort pairLE (allSimPairs M), p.i = i ∧ p.j = j := by
    intro i j hi hj _ _
    exact ⟨⟨i, j, (M.getD i []).getD j default⟩,
      hperm.mem_iff.mpr ((mem_allSimPairs M _).mpr ⟨hi, hj, rfl⟩), rfl, rfl⟩
  have hfinal := greedyInv_greedyAssign M.length
    (List.insertionSort pairLE (allSimPairs M)) _ (greedyInv_init M.length) hLj
  have hcomp := greedyAssign_complete M.length
    (List.insertionSort pairLE (allSimPairs M)) _ (greedyInv_init M.length)
    hLj hcover
  have hres : hungarianAlgorithm M = (greedyAssign M.length
      (List.insertionSort pairLE (allSimPairs M))
      (List.replicate M.length (-1), ∅)).1 := rfl
  obtain ⟨h1, h2, h3, h4, h5⟩ := hfinal
  have hassigned : ∀ k, k < M.length → ∃ j, j < M.length ∧
      (hungarianAlgorithm M).getD k 0 = (j : ℤ) := by
    intro k hk
    rcases h3 k hk with hm | ⟨j, hjm, hv⟩
    · exact absurd hm (hcomp k hk)
    · exact ⟨j, h2 j hjm, by rw [hres]; exact hv⟩
  have hinj : ∀ k₁ k₂, k₁ < M.length → k₂ < M.length →
      (hungarianAlgorithm M).getD k₁ 0 = (hungarianAlgorithm M).getD k₂ 0 →
      k₁ = k₂ := by
    intro k₁ k₂ hk₁ hk₂ heq
    rw [hres] at heq
    exact h5 k₁ k₂ hk₁ hk₂ (by rw [← hres]; exact hcomp k₁ hk₁) heq
  refine ⟨by rw [hres]; exact h1, hassigned, hinj, ?_⟩
  have hmaps : ∀ k ∈ Finset.range M.length,
      ((hungarianAlgorithm M).getD k 0).toNat ∈ (greedyAssign M.length
        (List.insertionSort pairLE (allSimPairs M))
        (List.replicate M.length (-1), ∅)).2 := by
    intro k hk
    rcases h3 k (Finset.mem_range.mp hk) with hm | ⟨j, hjm, hv⟩
    · exact absurd hm (hcomp k (Finset.mem_range.mp hk))
    · rw [hres, hv]
      simpa using hjm
  have hinj2 : Set.InjOn (fun k => ((hungarianAlgorithm M).getD k 0).toNat)
      (Finset.range M.length) := by
    intro k₁ hk₁ k₂ hk₂ he
    rw [Finset.mem_coe, Finset.mem_range] at hk₁ hk₂
    obtain ⟨j₁, _, hv₁⟩ := hassigned k₁ hk₁
    obtain ⟨j₂, _, hv₂⟩ := hassigned k₂ hk₂
    simp only at he
    rw [hv₁, hv₂] at he
    simp only [Int.toNat_natCast] at he
    exact hinj k₁ k₂ hk₁ hk₂ (by rw [hv₁, hv₂, he])
  have hsub : (greedyAssign M.length
      (List.insertionSort pairLE (allSimPairs M))
      (List.replicate M.length (-1), ∅)).2 ⊆ Finset.range M.length :=
    fun j hj => Finset.mem_range.mpr (h2 j hj)
  have hcardge : M.length ≤ (greedyAssign M.length
      (List.insertionSort pairLE (allSimPairs M))
      (List.replicate M.length (-1), ∅)).2.card := by
    have := Finset.card_le_card_of_injOn _ hmaps hinj2
    rwa [Finset.card_range] at this
  have hused : (greedyAssign M.length
      (List.insertionSort pairLE (allSimPairs M))
      (List.replicate M.length (-1), ∅)).2 = Finset.range M.length :=
    Finset.eq_of_subset_of_card_le hsub (by rw [Finset.card_range]; exact hcardge)
  intro j hj
  have hjm : j ∈ (greedyAssign M.length
      (List.insertionSort pairLE (allSimPairs M))
      (List.replicate M.length (-1), ∅)).2 := by
    rw [hused]
    exact Finset.mem_range.mpr hj
  obtain ⟨k, hk, hv⟩ := h4 j hjm
  exact ⟨k, hk, by rw [hres]; exact hv⟩

/-- C1: for every `N × N` similarity matrix of reals with `N ≥ 1`, the greedy
solver returns an assignment of length `N` that is a bijection over `[0,N)`:
every entry is some `j < N` and every `j < N` is hit by exactly one row. -/
theorem C1_hungarian_bijection (M : List (List ℝ))
    (hsq : ∀ row ∈ M, row.length = M.length) (hN : 1 ≤ M.length) :
    (hungarianAlgorithm M).length = M.length ∧
    (∀ k, k < M.length → ∃ j, j < M.length ∧
      (hungarianAlgorithm M).getD k 0 = (j : ℤ)) ∧
    (∀ j, j < M.length → ∃! k, k < M.length ∧
      (hungarianAlgorithm M).getD k 0 = (j : ℤ)) := by
  obtain ⟨h1, h2, h3, h4⟩ := hungarian_perm M
  refine ⟨h1, h2, fun j hj => ?_⟩
  obtain ⟨k, hk, hv⟩ := h4 j hj
  refine ⟨k, ⟨hk, hv⟩, ?_⟩
  rintro k' ⟨hk', hv'⟩
  exact h3 k' k hk' hk (by rw [hv, hv'])

theorem C1_witness :
    (∀ row ∈ [[(0.5 : ℝ)]], row.length = ([[(0.5 : ℝ)]] : List (List ℝ)).length) ∧
    1 ≤ ([[(0.5 : ℝ)]] : List (List ℝ)).length ∧
    ((hungarianAlgorithm [[(0.5 : ℝ)]]).length =
        ([[(0.5 : ℝ)]] : List (List ℝ)).length ∧
     (∀ k, k < ([[(0.5 : ℝ)]] : List (List ℝ)).length →
       ∃ j, j < ([[(0.5 : ℝ)]] : List (List ℝ)).length ∧
       (hungarianAlgorithm [[(0.5 : ℝ)]]).getD k 0 = (j : ℤ)) ∧
     (∀ j, j < ([[(0.5 : ℝ)]] : List (List ℝ)).length →
       ∃! k, k < ([[(0.5 : ℝ)]] : List (List ℝ)).length ∧
       (hungarianAlgorithm [[(0.5 : ℝ)]]).getD k 0 = (j : ℤ))) :=
  ⟨by simp, by simp,
   C1_hungarian_bijection [[(0.5 : ℝ)]] (by simp) (by simp)⟩

/-! ## C5: diagonal-dominant and identical-image matrices give the identity -/

theorem isIdOn_init (n : Nat) : isIdOn n ∅ (List.replicate n (-1), ∅) := by
  refine ⟨List.length_replicate n (-1), rfl, Finset.empty_subset _, ?_⟩
  intro k hk
  rw [getD_replicate _ _ hk, if_neg (Finset.not_mem_empty k)]

theorem isIdOn_full (n : Nat) (S : Finset Nat) (st : List ℤ × Finset Nat)
    (h : isIdOn n S st) (hcard : S.card = n) :
    st = ((List.range n).map (fun (k : Nat) => (k : ℤ)), Finset.range n) := by
  obtain ⟨hlen, hst2, hsub, hpt⟩ := h
  have hSeq : S = Finset.range n :=
    Finset.eq_of_subset_of_card_le hsub (by rw [Finset.card_range, hcard])
  have h1 : st.1 = (List.range n).map (fun (k : Nat) => (k : ℤ)) := by
    refine ext_getD 0 (by rw [hlen]; simp) ?_
    intro k hk
    rw [hlen] at hk
    rw [hpt k hk, getD_map_range hk,
      if_pos (by rw [hSeq]; exact Finset.mem_range.mpr hk)]
  have h2 : st.2 = Finset.range n := by rw [hst2, hSeq]
  rw [← h1, ← h2]

theorem greedy_stuck {α : Type} (n : Nat) :
    ∀ (L : List (SimPair α)) (st : List ℤ × Finset Nat),
      (∀ k, k < n → st.1.getD k 0 ≠ -1) → st.1.length = n → st.2.card = n →
      greedyAssign n L st = st
  | [], _, _, _, _ => rfl
  | p :: L, st, hassigned, hlen, hcard => by
    simp only [greedyAssign]
    have hcond : ¬(st.1.getD p.i 0 = -1 ∧ p.j ∉ st.2) := by
      rintro ⟨h1, _⟩
      by_cases hp : p.i < n
      · exact hassigned p.i hp h1
      · rw [getD_out_of_range st.1 p.i (by rw [hlen]; omega)] at h1
        exact absurd h1 (by norm_num)
    rw [if_neg hcond, if_pos hcard]

theorem greedy_skip {α : Type} (n : Nat) :
    ∀ (K L : List (SimPair α)) (st : List ℤ × Finset Nat),
      (∀ p ∈ K, st.1.getD p.i 0 ≠ -1 ∨ p.j ∈ st.2) → st.2.card ≠ n →
      greedyAssign n (K ++ L) st = greedyAssign n L st
  | [], _, _, _, _ => rfl
  | p :: K, L, st, h, hc => by
    rw [List.cons_append]
    simp only [greedyAssign]
    have hcond : ¬(st.1.getD p.i 0 = -1 ∧ p.j ∉ st.2) := by
      rcases h p (List.mem_cons_self p K) with h1 | h1
      · rintro ⟨h2, _⟩
        exact h1 h2
      · rintro ⟨_, h2⟩
        exact h2 h1
    rw [if_neg hcond, if_neg hc]
    exact greedy_skip n K L st (fun q hq => h q (List.mem_cons_of_mem p hq)) hc

theorem greedy_diag_run {α : Type} (n : Nat) :
    ∀ (d tail : List (SimPair α)) (st : List ℤ × Finset Nat) (S : Finset Nat),
      isIdOn n S st → (∀ p ∈ d, p.i = p.j) → (∀ p ∈ d, p.i < n) →
      (d.map SimPair.i).Nodup → (∀ p ∈ d, p.i ∉ S) →
      S.card + d.length = n →
      greedyAssign n (d ++ tail) st =
        ((List.range n).map (fun (k : Nat) => (k : ℤ)), Finset.range n)
  | [], tail, st, S, hId, _, _, _, _, hcard => by
    have hfull := isIdOn_full n S st hId (by simpa using hcard)
    rw [List.nil_append, hfull]
    refine greedy_stuck n tail _ ?_ (by simp) (by simp)
    intro k hk
    rw [getD_map_range hk]
    omega
  | p :: d, tail, st, S, hId, hdiag, hlt, hnodup, hS, hcard => by
    obtain ⟨hlen, hst2, hsub, hpt⟩ := hId
    have hpi : p.i < n := hlt p (List.mem_cons_self p d)
    have hpS : p.i ∉ S := hS p (List.mem_cons_self p d)
    have hpj : p.j = p.i := (hdiag p (List.mem_cons_self p d)).symm
    have hcond : st.1.getD p.i 0 = -1 ∧ p.j ∉ st.2 := by
      constructor
      · rw [hpt p.i hpi, if_neg hpS]
      · rw [hpj, hst2]
        exact hpS
    rw [List.cons_append]
    simp only [greedyAssign]
    rw [if_pos hcond]
    dsimp only
    rw [hpj, hst2]
    have hId' : isIdOn n (insert p.i S) (st.1.set p.i ((p.i : ℕ) : ℤ), insert p.i S) := by
      refine ⟨by rw [List.length_set]; exact hlen, rfl, ?_, ?_⟩
      · intro k hk
        rcases Finset.mem_insert.mp hk with rfl | hkS
        · exact Finset.mem_range.mpr hpi
        · exact hsub hkS
      · intro k hk
        by_cases hkpi : p.i = k
        · subst hkpi
          rw [getD_set_self _ _ _ _ (hlen ▸ hpi),
            if_pos (Finset.mem_insert_self _ _)]
        · rw [getD_set_ne _ hkpi, hpt k hk]
          by_cases hkS : k ∈ S
          · rw [if_pos hkS, if_pos (Finset.mem_insert_of_mem hkS)]
          · rw [if_neg hkS, if_neg (fun hmem =>
              (Finset.mem_insert.mp hmem).elim (fun he => hkpi he.symm) hkS)]
    have hmapcons : List.map SimPair.i (p :: d) = p.i :: List.map SimPair.i d := rfl
    rw [hmapcons] at hnodup
    have hnodup' := List.nodup_cons.mp hnodup
    by_cases hbreak : (insert p.i S).card = n
    · rw [if_pos hbreak]
      exact isIdOn_full n _ _ hId' hbreak
    · rw [if_neg hbreak]
      refine greedy_diag_run n d tail _ (insert p.i S) hId'
        (fun q hq => hdiag q (List.mem_cons_of_mem p hq))
        (fun q hq => hlt q (List.mem_cons_of_mem p hq))
        hnodup'.2 ?_ ?_
      · intro q hq hmem
        rcases Finset.mem_insert.mp hmem with he | hqS
        · exact hnodup'.1 (he ▸ List.mem_map_of_mem SimPair.i hq)
        · exact hS q (List.mem_cons_of_mem p hq) hqS
      · rw [Finset.card_insert_of_not_mem hpS]
        simp only [List.length_cons] at hcard
        omega

theorem sorted_top_prefix {α : Type} (r : α → α → Prop) (P : α → Bool) :
    ∀ (l : List α), List.Sorted r l →
      (∀ a b, a ∈ l → b ∈ l → P a = false → P b = true → ¬r a b) →
      ∃ v, l = l.filter P ++ v ∧ ∀ x ∈ v, P x = false
  | [], _, _ => ⟨[], by simp, by simp⟩
  | a :: t, hsort, hcond => by
    obtain ⟨hat, hts⟩ := List.sorted_cons.mp hsort
    by_cases hPa : P a = true
    · obtain ⟨v, hv, hvf⟩ := sorted_top_prefix r P t hts
        (fun x y hx hy => hcond x y (List.mem_cons_of_mem _ hx)
          (List.mem_cons_of_mem _ hy))
      refine ⟨v, ?_, hvf⟩
      rw [List.filter_cons, if_pos hPa, List.cons_append, ← hv]
    · have hPa' : P a = false := by
        rcases Bool.eq_false_or_eq_true (P a) with h | h
        · exact absurd h hPa
        · exact h
      have hallf : ∀ x ∈ a :: t, P x = false := by
        intro x hx
        rcases List.mem_cons.mp hx with rfl | hxt
        · exact hPa'
        · rcases Bool.eq_false_or_eq_true (P x) with h | h
          · exact absurd (hat x hxt)
              (hcond a x (List.mem_cons_self a t) (List.mem_cons_of_mem _ hxt)
                hPa' h)
          · exact h
      refine ⟨a :: t, ?_, hallf⟩
      rw [List.filter_eq_nil_iff.mpr (fun x hx => by rw [hallf x hx]; simp),
        List.nil_append]

theorem filter_insertionSort_top {α : Type} (r : α → α → Prop) [DecidableRel r]
    (P : α → Bool) :
    ∀ (l : List α), (∀ a b, a ∈ l → b ∈ l → P a = true → r a b) →
      (List.insertionSort r l).filter P = l.filter P
  | [], _ => rfl
  | a :: t, h => by
    have hperm := List.perm_insertionSort r t
    show (List.orderedInsert r a (List.insertionSort r t)).filter P = _
    by_cases hPa : P a = true
    · have hhead : List.orderedInsert r a (List.insertionSort r t) =
          a :: List.insertionSort r t := by
        cases hsort : List.insertionSort r t with
        | nil => rfl
        | cons b xs =>
          refine List.orderedInsert_of_le r _ ?_
          have hb : b ∈ t := hperm.mem_iff.mp
            (by rw [hsort]; exact List.mem_cons_self b xs)
          exact h a b (List.mem_cons_self a t) (List.mem_cons_of_mem a hb) hPa
      rw [hhead, List.filter_cons, if_pos hPa, List.filter_cons, if_pos hPa,
        filter_insertionSort_top r P t (fun x y hx hy =>
          h x y (List.mem_cons_of_mem _ hx) (List.mem_cons_of_mem _ hy))]
    · rw [List.orderedInsert_eq_take_drop, List.filter_append, List.filter_cons,
        if_neg hPa, ← List.filter_append, List.takeWhile_append_dropWhile,
        List.filter_cons, if_neg hPa]
      exact filter_insertionSort_top r P t (fun x y hx hy =>
        h x y (List.mem_cons_of_mem _ hx) (List.mem_cons_of_mem _ hy))

theorem flatMap_congr {β γ : Type} :
    ∀ (l : List γ) (f g : γ → List β), (∀ a ∈ l, f a = g a) →
      l.flatMap f = l.flatMap g
  | [], _, _, _ => rfl
  | a :: l, f, g, h => by
    rw [List.flatMap_cons, List.flatMap_cons, h a (List.mem_cons_self a l),
      flatMap_congr l f g (fun x hx => h x (List.mem_cons_of_mem a hx))]

theorem range_filter_eq (i : Nat) :
    ∀ (n : Nat), i < n →
      (List.range n).filter (fun j => decide (i = j)) = [i]
  | 0, h => absurd h (Nat.not_lt_zero i)
  | n + 1, h => by
    rw [List.range_succ, List.filter_append]
    rcases Nat.lt_succ_iff_lt_or_eq.mp h with hlt | heq
    · rw [range_filter_eq i n hlt]
      have hne : ((n :: List.nil).filter (fun j => decide (i = j))) = [] := by
        simp [Nat.ne_of_lt hlt]
      rw [hne, List.append_nil]
    · subst heq
      rw [List.filter_eq_nil_iff.mpr
        (fun x hx => by
          simp only [List.mem_range] at hx
          simp
          omega)]
      simp

theorem filter_allSimPairs_diag {α : Type} [Inhabited α] (M : List (List α)) :
    (allSimPairs M).filter (fun p => decide (p.i = p.j)) =
      (List.range M.length).map
        (fun i => (⟨i, i, (M.getD i []).getD i default⟩ : SimPair α)) := by
  unfold allSimPairs
  rw [List.filter_flatMap]
  rw [flatMap_congr (List.range M.length) _
    (fun i => [(⟨i, i, (M.getD i []).getD i default⟩ : SimPair α)]) ?_]
  · induction M.length with
    | zero => rfl
    | succ n ih =>
      rw [List.range_succ, List.flatMap_append, List.map_append, ih]
      rfl
  · intro i hi
    rw [List.filter_map]
    have hcomp : ((fun p => decide (p.i = p.j)) ∘
        (fun j => (⟨i, j, (M.getD i []).getD j default⟩ : SimPair α))) =
        fun j => decide (i = j) := rfl
    rw [hcomp, range_filter_eq i M.length (List.mem_range.mp hi)]
    rfl

theorem filter_allSimPairs_top {α : Type} [Inhabited α] [DecidableEq α]
    (M : List (List α)) (v : α) :
    (allSimPairs M).filter (fun p => decide (p.sim = v)) =
      (List.range M.length).flatMap (rowFiltered M v) := by
  unfold allSimPairs rowFiltered
  rw [List.filter_flatMap]
  refine flatMap_congr _ _ _ ?_
  intro i _
  rw [List.filter_map]
  rfl

theorem range_split (n m : Nat) (h : m ≤ n) :
    List.range n = List.range m ++ List.range' m (n - m) := by
  have h2 := List.range'_append 0 m (n - m) 1
  simp only [Nat.zero_add, Nat.one_mul] at h2
  rw [List.range_eq_range', List.range_eq_range', h2, Nat.sub_add_cancel h]

theorem rowFiltered_split {α : Type} [Inhabited α] [DecidableEq α]
    (M : List (List α)) (v : α) (m : Nat) (hm : m < M.length)
    (hdiag : (M.getD m []).getD m default = v) :
    rowFiltered M v m =
      ((List.range m).filter
          (fun j => decide ((M.getD m []).getD j default = v))).map
        (fun j => (⟨m, j, (M.getD m []).getD j default⟩ : SimPair α)) ++
      (⟨m, m, (M.getD m []).getD m default⟩ : SimPair α) ::
      ((List.range' (m + 1) (M.length - m - 1)).filter
          (fun j => decide ((M.getD m []).getD j default = v))).map
        (fun j => (⟨m, j, (M.getD m []).getD j default⟩ : SimPair α)) := by
  unfold rowFiltered
  rw [range_split M.length m (le_of_lt hm), List.filter_append, List.map_append]
  congr 1
  have hr : List.range' m (M.length - m) = m :: List.range' (m + 1) (M.length - m - 1) := by
    have h2 := List.range'_succ m (M.length - m - 1) 1
    rw [show M.length - m - 1 + 1 = M.length - m from by omega] at h2
    exact h2
  rw [hr, List.filter_cons, if_pos (by rw [hdiag]; simp), List.map_cons]

theorem greedy_rows_run {α : Type} [LinearOrder α] [Inhabited α] [DecidableEq α]
    (M : List (List α)) (v : α)
    (hdiag : ∀ i, i < M.length → (M.getD i []).getD i default = v) :
    ∀ (cnt m : Nat) (tail : List (SimPair α)) (st : List ℤ × Finset Nat),
      isIdOn M.length (Finset.range m) st → m + cnt = M.length →
      greedyAssign M.length
        ((List.range' m cnt).flatMap (rowFiltered M v) ++ tail) st =
        ((List.range M.length).map (fun (k : Nat) => (k : ℤ)),
          Finset.range M.length)
  | 0, m, tail, st, hId, hm => by
    have hm' : m = M.length := by omega
    subst hm'
    have hfull := isIdOn_full M.length (Finset.range M.length) st hId
      (Finset.card_range M.length)
    rw [show List.range' M.length 0 = [] from rfl, List.flatMap_nil,
      List.nil_append, hfull]
    refine greedy_stuck M.length tail _ ?_ (by simp) (Finset.card_range _)
    intro k hk
    rw [getD_map_range hk]
    omega
  | cnt + 1, m, tail, st, hId, hm => by
    obtain ⟨hlen, hst2, hsub, hpt⟩ := hId
    have hmlt : m < M.length := by omega
    rw [List.range'_succ m cnt 1, List.flatMap_cons, List.append_assoc,
      rowFiltered_split M v m hmlt (hdiag m hmlt), List.append_assoc]
    refine Eq.trans (greedy_skip M.length _ _ _ ?_ ?_) ?_
    · intro p hp
      simp only [List.mem_map, List.mem_filter, List.mem_range] at hp
      obtain ⟨j, ⟨hjm, _⟩, rfl⟩ := hp
      exact Or.inr (by rw [hst2]; exact Finset.mem_range.mpr hjm)
    · rw [hst2, Finset.card_range]
      omega
    rw [List.cons_append]
    simp only [greedyAssign]
    have hcond : st.1.getD m 0 = -1 ∧ m ∉ st.2 := by
      constructor
      · rw [hpt m hmlt, if_neg (by simp)]
      · rw [hst2]
        simp
    rw [if_pos hcond]
    dsimp only
    rw [hst2, ← Finset.range_succ]
    have hId' : isIdOn M.length (Finset.range (m + 1))
        (st.1.set m ((m : Nat) : ℤ), Finset.range (m + 1)) := by
      refine ⟨by rw [List.length_set]; exact hlen, rfl, ?_, ?_⟩
      · intro k hk
        have := Finset.mem_range.mp hk
        exact Finset.mem_range.mpr (by omega)
      · intro k hk
        by_cases hkm : m = k
        · subst hkm
          rw [getD_set_self _ _ _ _ (hlen ▸ hmlt),
            if_pos (Finset.mem_range.mpr (by omega))]
        · rw [getD_set_ne _ hkm, hpt k hk]
          by_cases hkS : k ∈ Finset.range m
          · have := Finset.mem_range.mp hkS
            rw [if_pos hkS, if_pos (Finset.mem_range.mpr (by omega))]
          · rw [if_neg hkS, if_neg (fun hc => hkS (Finset.mem_range.mpr (by
              have h1 := Finset.mem_range.mp hc
              rcases Nat.lt_succ_iff_lt_or_eq.mp h1 with h2 | h2
              · exact h2
              · exact absurd h2.symm hkm)))]
    by_cases hbreak : (Finset.range (m + 1)).card = M.length
    · rw [if_pos hbreak]
      exact isIdOn_full _ _ _ hId' hbreak
    · rw [if_neg hbreak]
      refine Eq.trans (greedy_skip M.length _ _ _ ?_ ?_) ?_
      · intro p hp
        simp only [List.mem_map, List.mem_filter] at hp
        obtain ⟨j, _, rfl⟩ := hp
        refine Or.inl ?_
        dsimp only
        rw [getD_set_self _ _ _ _ (hlen ▸ hmlt)]
        omega
      · exact hbreak
      · exact greedy_rows_run M v hdiag cnt (m + 1) tail _ hId' (by omega)

theorem greedy_top_diag {α : Type} [LinearOrder α] [Inhabited α] [DecidableEq α]
    (M : List (List α)) (v : α)
    (hdiag : ∀ i, i < M.length → (M.getD i []).getD i default = v)
    (hle : ∀ p ∈ allSimPairs M, p.sim ≤ v) :
    hungarianAlgorithm M = (List.range M.length).map (fun (k : Nat) => (k : ℤ)) := by
  have hsorted := List.sorted_insertionSort pairLE (allSimPairs M)
  have hperm := List.perm_insertionSort pairLE (allSimPairs M)
  have hcondition : ∀ a b : SimPair α,
      a ∈ List.insertionSort pairLE (allSimPairs M) →
      b ∈ List.insertionSort pairLE (allSimPairs M) →
      (fun p => decide (p.sim = v)) a = false →
      (fun p => decide (p.sim = v)) b = true → ¬pairLE a b := by
    intro a b ha hb hPa hPb hr
    have hav : a.sim ≠ v := by simpa using hPa
    have hbv : b.sim = v := by simpa using hPb
    have hale : a.sim ≤ v := hle a (hperm.mem_iff.mp ha)
    have hr' : b.sim ≤ a.sim := hr
    rw [hbv] at hr'
    exact hav (le_antisymm hale hr')
  obtain ⟨vrest, hsplit, _⟩ := sorted_top_prefix pairLE
    (fun p => decide (p.sim = v)) _ hsorted hcondition
  have hmax : ∀ a b : SimPair α, a ∈ allSimPairs M → b ∈ allSimPairs M →
      (fun p => decide (p.sim = v)) a = true → pairLE a b := by
    intro a b _ hb hPa
    have hav : a.sim = v := by simpa using hPa
    show b.sim ≤ a.sim
    rw [hav]
    exact hle b hb
  have hstab := filter_insertionSort_top pairLE (fun p => decide (p.sim = v))
    (allSimPairs M) hmax
  show (greedyAssign M.length (List.insertionSort pairLE (allSimPairs M))
    (List.replicate M.length (-1), ∅)).1 = _
  rw [hsplit, hstab, filter_allSimPairs_top M v]
  have hinit : isIdOn M.length (Finset.range 0)
      (List.replicate M.length (-1), ∅) := by
    rw [Finset.range_zero]
    exact isIdOn_init M.length
  have hrun := greedy_rows_run M v hdiag M.length 0 vrest
    (List.replicate M.length (-1), ∅) hinit (by omega)
  rw [← List.range_eq_range'] at hrun
  rw [hrun]

theorem greedy_strict_diag {α : Type} [LinearOrder α] [Inhabited α]
    (M : List (List α))
    (hstrict : ∀ i k l, i < M.length → k < M.length → l < M.length → k ≠ l →
      (M.getD k []).getD l default < (M.getD i []).getD i default) :
    hungarianAlgorithm M = (List.range M.length).map (fun (k : Nat) => (k : ℤ)) := by
  classical
  have hsorted := List.sorted_insertionSort pairLE (allSimPairs M)
  have hperm := List.perm_insertionSort pairLE (allSimPairs M)
  have hcondition : ∀ a b : SimPair α,
      a ∈ List.insertionSort pairLE (allSimPairs M) →
      b ∈ List.insertionSort pairLE (allSimPairs M) →
      (fun p => decide (p.i = p.j)) a = false →
      (fun p => decide (p.i = p.j)) b = true → ¬pairLE a b := by
    intro a b ha hb hPa hPb hr
    have hav : a.i ≠ a.j := by simpa using hPa
    have hbv : b.i = b.j := by simpa using hPb
    obtain ⟨hai, haj, has⟩ := (mem_allSimPairs M a).mp (hperm.mem_iff.mp ha)
    obtain ⟨hbi, _, hbs⟩ := (mem_allSimPairs M b).mp (hperm.mem_iff.mp hb)
    have hlt : a.sim < b.sim := by
      rw [has, hbs, ← hbv]
      exact hstrict b.i a.i a.j hbi hai haj hav
    have hr' : b.sim ≤ a.sim := hr
    exact absurd hr' (not_le.mpr hlt)
  obtain ⟨vrest, hsplit, _⟩ := sorted_top_prefix pairLE
    (fun p => decide (p.i = p.j)) _ hsorted hcondition
  have hdperm : ((List.insertionSort pairLE (allSimPairs M)).filter
      (fun p => decide (p.i = p.j))).Perm
      ((allSimPairs M).filter (fun p => decide (p.i = p.j))) :=
    hperm.filter _
  have hdiagList := filter_allSimPairs_diag M
  have hdlen : ((List.insertionSort pairLE (allSimPairs M)).filter
      (fun p => decide (p.i = p.j))).length = M.length := by
    rw [hdperm.length_eq, hdiagList, List.length_map, List.length_range]
  have hd1 : ∀ p ∈ (List.insertionSort pairLE (allSimPairs M)).filter
      (fun p => decide (p.i = p.j)), p.i = p.j := by
    intro p hp
    have := (List.mem_filter.mp hp).2
    simpa using this
  have hdlt : ∀ p ∈ (List.insertionSort pairLE (allSimPairs M)).filter
      (fun p => decide (p.i = p.j)), p.i < M.length := by
    intro p hp
    exact ((mem_allSimPairs M p).mp
      (hperm.mem_iff.mp (List.mem_filter.mp hp).1)).1
  have hnodup : (((List.insertionSort pairLE (allSimPairs M)).filter
      (fun p => decide (p.i = p.j))).map SimPair.i).Nodup := by
    have hmp := hdperm.map SimPair.i
    rw [hdiagList, List.map_map] at hmp
    have hcomp : (SimPair.i ∘ fun i => (⟨i, i, (M.getD i []).getD i default⟩ :
        SimPair α)) = fun i => i := rfl
    rw [hcomp] at hmp
    refine hmp.nodup_iff.mpr ?_
    simpa using List.nodup_range M.length
  show (greedyAssign M.length (List.insertionSort pairLE (allSimPairs M))
    (List.replicate M.length (-1), ∅)).1 = _
  rw [hsplit]
  rw [greedy_diag_run M.length _ vrest _ ∅ (isIdOn_init M.length) hd1 hdlt
    hnodup (fun p _ => Finset.not_mem_empty p.i)
    (by rw [Finset.card_empty, hdlen]; omega)]

theorem foldl_fst_mono {β : Type} (f : ℝ × ℝ → β → ℝ × ℝ)
    (h : ∀ st c, st.1 ≤ (f st c).1) :
    ∀ (l : List β) (st : ℝ × ℝ), st.1 ≤ (l.foldl f st).1
  | [], _ => le_refl _
  | c :: l, st => le_trans (h st c) (foldl_fst_mono f h l (f st c))

theorem foldl_snd_mono {β : Type} (f : ℝ × ℝ → β → ℝ × ℝ)
    (h : ∀ st c, st.2 ≤ (f st c).2) :
    ∀ (l : List β) (st : ℝ × ℝ), st.2 ≤ (l.foldl f st).2
  | [], _ => le_refl _
  | c :: l, st => le_trans (h st c) (foldl_snd_mono f h l (f st c))

theorem foldl_fst_nonneg {β : Type} (f : ℝ × ℝ → β → ℝ × ℝ)
    (h : ∀ st c, st.1 ≤ (f st c).1) (l : List β) (st : ℝ × ℝ)
    (h0 : 0 ≤ st.1) : 0 ≤ (l.foldl f st).1 :=
  le_trans h0 (foldl_fst_mono f h l st)

theorem foldl_snd_nonneg {β : Type} (f : ℝ × ℝ → β → ℝ × ℝ)
    (h : ∀ st c, st.2 ≤ (f st c).2) (l : List β) (st : ℝ × ℝ)
    (h0 : 0 ≤ st.2) : 0 ≤ (l.foldl f st).2 :=
  le_trans h0 (foldl_snd_mono f h l st)

theorem tileSimAcc_fst_nonneg (tileA tileB : List (List String)) :
    0 ≤ (tileSimAcc tileA tileB).1 := by
  unfold tileSimAcc
  refine foldl_fst_nonneg _ ?_ _ _ le_rfl
  intro st r
  refine foldl_fst_mono _ ?_ _ _
  intro st c
  exact le_add_of_nonneg_right (pixelDiff_nonneg _ _)

theorem tileSimAcc_snd_nonneg (tileA tileB : List (List String)) :
    0 ≤ (tileSimAcc tileA tileB).2 := by
  unfold tileSimAcc
  refine foldl_snd_nonneg _ ?_ _ _ le_rfl
  intro st r
  refine foldl_snd_mono _ ?_ _ _
  intro st c
  exact le_add_of_nonneg_right (by norm_num)

theorem tileSimilarity_le_one (tileA tileB : List (List String)) :
    tileSimilarity tileA tileB ≤ 1 := by
  unfold tileSimilarity
  split_ifs with h
  · norm_num
  · have h1 := tileSimAcc_fst_nonneg tileA tileB
    have h2 := tileSimAcc_snd_nonneg tileA tileB
    have h3 : (0 : ℝ) ≤ (tileSimAcc tileA tileB).1 /
        (tileSimAcc tileA tileB).2 / 441.67 :=
      div_nonneg (div_nonneg h1 h2) (by norm_num)
    linarith

theorem buildSim_length (tilesA tilesB : List (List (List String))) :
    (buildSimilarityMatrix tilesA tilesB).length = tilesA.length := by
  unfold buildSimilarityMatrix
  simp

theorem buildSim_entry (tilesA tilesB : List (List (List String)))
    (i j : Nat) (hi : i < tilesA.length) (hj : j < tilesA.length) (d : ℝ) :
    ((buildSimilarityMatrix tilesA tilesB).getD i []).getD j d =
      tileSimilarity (tilesA.getD i []) (tilesB.getD j []) := by
  unfold buildSimilarityMatrix
  rw [getD_map_range hi, getD_map_range hj]

theorem extractTiles_length (image : List (List String)) (g : Nat) :
    (extractTiles image g).length = g * g := by
  simp only [extractTiles]
  exact length_flatMap_const _ _ _ (fun i _ => by simp)

/-- C5: (1) whenever every diagonal entry strictly dominates every
off-diagonal entry, the greedy solver returns the identity permutation;
(2) in particular on `[[1,.1,.1],[.1,1,.1],[.1,.1,1]]` it returns `[0,1,2]`;
(3) for identical source images (diagonal similarity exactly `1`, the maximal
similarity value) the solver also returns the identity permutation. -/
theorem C5_greedy_identity :
    (∀ M : List (List ℝ),
      (∀ i k l, i < M.length → k < M.length → l < M.length → k ≠ l →
        (M.getD k []).getD l 0 < (M.getD i []).getD i 0) →
      hungarianAlgorithm M =
        (List.range M.length).map (fun (k : Nat) => (k : ℤ))) ∧
    hungarianAlgorithm
      [[(1 : ℚ), 1/10, 1/10], [1/10, 1, 1/10], [1/10, 1/10, 1]] = [0, 1, 2] ∧
    (∀ (image : List (List String)) (g : Nat),
      Rectangular image → ValidPixels image → 1 ≤ g → g ≤ image.length →
      g ≤ (image.getD 0 []).length →
      hungarianAlgorithm (buildSimilarityMatrix (extractTiles image g)
        (extractTiles image g)) =
        (List.range (g * g)).map (fun (k : Nat) => (k : ℤ))) := by
  refine ⟨?_, by decide, ?_⟩
  · intro M h
    refine greedy_strict_diag M ?_
    intro i k l hi hk hl hne
    have hd : (default : ℝ) = 0 := rfl
    rw [hd]
    exact h i k l hi hk hl hne
  · intro image g _ _ _ _ _
    have hdiag : ∀ i, i < (buildSimilarityMatrix (extractTiles image g)
        (extractTiles image g)).length →
        ((buildSimilarityMatrix (extractTiles image g)
          (extractTiles image g)).getD i []).getD i default = 1 := by
      intro i hi
      rw [buildSim_length] at hi
      rw [buildSim_entry _ _ i i hi hi, tileSimilarity_self]
    have hle : ∀ p ∈ allSimPairs (buildSimilarityMatrix (extractTiles image g)
        (extractTiles image g)), p.sim ≤ 1 := by
      intro p hp
      obtain ⟨hi, hj, hs⟩ := (mem_allSimPairs _ p).mp hp
      rw [buildSim_length] at hi hj
      rw [hs, buildSim_entry _ _ _ _ hi hj]
      exact tileSimilarity_le_one _ _
    have hrun := greedy_top_diag (buildSimilarityMatrix (extractTiles image g)
      (extractTiles image g)) 1 hdiag hle
    rw [hrun, buildSim_length, extractTiles_length]

theorem C5_witness :
    hungarianAlgorithm [[(2 : ℝ)]] =
      (List.range ([[(2 : ℝ)]] : List (List ℝ)).length).map
        (fun (k : Nat) => (k : ℤ)) ∧
    Rectangular [["#012345"]] ∧ ValidPixels [["#012345"]] ∧
    hungarianAlgorithm (buildSimilarityMatrix (extractTiles [["#012345"]] 1)
      (extractTiles [["#012345"]] 1)) =
      (List.range (1 * 1)).map (fun (k : Nat) => (k : ℤ)) :=
  ⟨by
     refine C5_greedy_identity.1 [[(2 : ℝ)]] ?_
     intro i k l hi hk hl hne
     simp only [List.length_cons, List.length_nil] at hk hl
     exact absurd (show k = l by omega) hne,
   by decide, by decide,
   C5_greedy_identity.2.2 [["#012345"]] 1 (by decide) (by decide) (by decide)
     (by decide) (by decide)⟩

/-! ## C2: matchImages solution orderings -/

theorem getD_irrel {α : Type} (l : List α) (i : Nat) (h : i < l.length)
    (d₁ d₂ : α) : l.getD i d₁ = l.getD i d₂ := by
  rw [List.getD_eq_getElem _ _ h, List.getD_eq_getElem _ _ h]

theorem solB_length (asg : List ℤ) :
    ∀ (L : List Nat) (acc : List (Option Nat)),
      (L.foldl (fun acc i => if asg.getD i (-1) < 0 then acc
        else acc.set (asg.getD i (-1)).toNat (some i)) acc).length = acc.length
  | [], _ => rfl
  | i :: L, acc => by
    rw [List.foldl_cons, solB_length asg L]
    by_cases hneg : asg.getD i (-1) < 0
    · rw [if_pos hneg]
    · rw [if_neg hneg, List.length_set]

theorem solB_untouched (asg : List ℤ) :
    ∀ (L : List Nat) (acc : List (Option Nat)) (p : Nat),
      (∀ i ∈ L, ¬asg.getD i (-1) < 0 → (asg.getD i (-1)).toNat ≠ p) →
      (L.foldl (fun acc i => if asg.getD i (-1) < 0 then acc
        else acc.set (asg.getD i (-1)).toNat (some i)) acc).getD p none =
        acc.getD p none
  | [], _, _, _ => rfl
  | i :: L, acc, p, h => by
    rw [List.foldl_cons,
      solB_untouched asg L _ p (fun i' hi' => h i' (List.mem_cons_of_mem _ hi'))]
    by_cases hneg : asg.getD i (-1) < 0
    · rw [if_pos hneg]
    · rw [if_neg hneg, getD_set_ne _ (h i (List.mem_cons_self i L) hneg)]

theorem solB_spec (asg : List ℤ) (n : Nat) (hlen : asg.length = n)
    (hassigned : ∀ i, i < n → ∃ j, j < n ∧ asg.getD i 0 = (j : ℤ))
    (hinj : ∀ k₁ k₂, k₁ < n → k₂ < n → asg.getD k₁ 0 = asg.getD k₂ 0 → k₁ = k₂) :
    ∀ i, i < n →
      ((List.range n).foldl (fun acc i => if asg.getD i (-1) < 0 then acc
        else acc.set (asg.getD i (-1)).toNat (some i))
        (List.replicate n (none : Option Nat))).getD
        (asg.getD i (-1)).toNat none = some i := by
  intro i hi
  have hival : ∀ k, k < n → asg.getD k (-1) = asg.getD k 0 :=
    fun k hk => getD_irrel asg k (by omega) _ _
  obtain ⟨j, hj, hjv⟩ := hassigned i hi
  have hiv : asg.getD i (-1) = (j : ℤ) := by rw [hival i hi, hjv]
  have hsplit1 : List.range n = List.range i ++ List.range' i (n - i) :=
    range_split n i (le_of_lt hi)
  have hsplit2 : List.range' i (n - i) = i :: List.range' (i + 1) (n - i - 1) := by
    have h2 := List.range'_succ i (n - i - 1) 1
    rw [show n - i - 1 + 1 = n - i from by omega] at h2
    exact h2
  rw [hsplit1, hsplit2, List.foldl_append, List.foldl_cons]
  have hnneg : ¬asg.getD i (-1) < 0 := by
    rw [hiv]
    omega
  rw [if_neg hnneg]
  rw [solB_untouched]
  · have hlenacc : ((List.range i).foldl (fun acc i => if asg.getD i (-1) < 0
        then acc else acc.set (asg.getD i (-1)).toNat (some i))
        (List.replicate n (none : Option Nat))).length = n := by
      rw [solB_length, List.length_replicate]
    refine getD_set_self _ _ _ _ ?_
    rw [hlenacc, hiv]
    simpa using hj
  · intro i' hi' hneg' heq
    have hi'n : i' < n := by
      have := List.mem_range'.mp hi'
      obtain ⟨m, hm, rfl⟩ := this
      omega
    have hi'ne : i' ≠ i := by
      have := List.mem_range'.mp hi'
      obtain ⟨m, _, rfl⟩ := this
      omega
    obtain ⟨j', hj', hjv'⟩ := hassigned i' hi'n
    have hiv' : asg.getD i' (-1) = (j' : ℤ) := by rw [hival i' hi'n, hjv']
    rw [hiv, hiv'] at heq
    simp only [Int.toNat_natCast] at heq
    exact hi'ne (hinj i' i hi'n hi (by rw [hjv, hjv']; exact_mod_cast heq))

theorem solB_all_some (asg : List ℤ) (n : Nat) (hlen : asg.length = n)
    (hassigned : ∀ i, i < n → ∃ j, j < n ∧ asg.getD i 0 = (j : ℤ))
    (hinj : ∀ k₁ k₂, k₁ < n → k₂ < n → asg.getD k₁ 0 = asg.getD k₂ 0 → k₁ = k₂)
    (hsurj : ∀ j, j < n → ∃ k, k < n ∧ asg.getD k 0 = (j : ℤ)) :
    ∀ p, p < n → ∃ i, i < n ∧
      ((List.range n).foldl (fun acc i => if asg.getD i (-1) < 0 then acc
        else acc.set (asg.getD i (-1)).toNat (some i))
        (List.replicate n (none : Option Nat))).getD p none = some i ∧
      (asg.getD i (-1)).toNat = p := by
  intro p hp
  obtain ⟨k, hk, hkv⟩ := hsurj p hp
  have hkd : asg.getD k (-1) = (p : ℤ) := by
    rw [getD_irrel asg k (by omega) (-1) 0, hkv]
  refine ⟨k, hk, ?_, by rw [hkd]; simp⟩
  have := solB_spec asg n hlen hassigned hinj k hk
  rwa [hkd, Int.toNat_natCast] at this

theorem matchImages_solutionA (imageA imageB : List (List String)) (g : Nat) :
    (matchImages imageA imageB g).solutionA =
      List.range (extractTiles imageA g).length := rfl

theorem matchImages_solutionB (imageA imageB : List (List String)) (g : Nat) :
    (matchImages imageA imageB g).solutionB =
      (List.range (hungarianAlgorithm (buildSimilarityMatrix
          (extractTiles imageA g) (extractTiles imageB g))).length).foldl
        (fun acc i => if (hungarianAlgorithm (buildSimilarityMatrix
            (extractTiles imageA g) (extractTiles imageB g))).getD i (-1) < 0
          then acc
          else acc.set ((hungarianAlgorithm (buildSimilarityMatrix
            (extractTiles imageA g) (extractTiles imageB g))).getD i
              (-1)).toNat (some i))
        (List.replicate (extractTiles imageA g).length (none : Option Nat)) :=
  rfl

/-- C2: for valid images and gridSize, `matchImages` returns
`solutionA = [0, 1, ..., N-1]` (tile `i` at position `i`), and `solutionB` is
the inverse of the solver's assignment (`solutionB[assignment[i]] = i`), a
permutation of `[0,N)` with no duplicates, where `N = gridSize²`. -/
theorem C2_matchImages_solutions (imageA imageB : List (List String)) (g : Nat)
    (hrectA : Rectangular imageA) (hrectB : Rectangular imageB)
    (hvalidA : ValidPixels imageA) (hvalidB : ValidPixels imageB)
    (hg : 1 ≤ g) (hghA : g ≤ imageA.length)
    (hgwA : g ≤ (imageA.getD 0 []).length) (hghB : g ≤ imageB.length)
    (hgwB : g ≤ (imageB.getD 0 []).length) :
    (matchImages imageA imageB g).solutionA = List.range (g * g) ∧
    (∀ i, i < g * g →
      (matchImages imageA imageB g).solutionB.getD
        ((hungarianAlgorithm (buildSimilarityMatrix (extractTiles imageA g)
          (extractTiles imageB g))).getD i (-1)).toNat none = some i) ∧
    (matchImages imageA imageB g).solutionB.length = g * g ∧
    (∀ o ∈ (matchImages imageA imageB g).solutionB,
      ∃ k, k < g * g ∧ o = some k) ∧
    (matchImages imageA imageB g).solutionB.Nodup := by
  have hN : (extractTiles imageA g).length = g * g := extractTiles_length imageA g
  obtain ⟨hl, hassigned, hinj, hsurj⟩ := hungarian_perm
    (buildSimilarityMatrix (extractTiles imageA g) (extractTiles imageB g))
  have hMlen : (buildSimilarityMatrix (extractTiles imageA g)
      (extractTiles imageB g)).length = g * g := by
    rw [buildSim_length, hN]
  rw [hMlen] at hl hassigned hinj hsurj
  have hlenf : ((List.range (g * g)).foldl (fun acc i =>
      if (hungarianAlgorithm (buildSimilarityMatrix (extractTiles imageA g)
          (extractTiles imageB g))).getD i (-1) < 0 then acc
      else acc.set ((hungarianAlgorithm (buildSimilarityMatrix
          (extractTiles imageA g) (extractTiles imageB g))).getD i
            (-1)).toNat (some i))
      (List.replicate (g * g) (none : Option Nat))).length = g * g := by
    rw [solB_length, List.length_replicate]
  refine ⟨?_, ?_, ?_, ?_, ?_⟩
  · rw [matchImages_solutionA, hN]
  · intro i hi
    rw [matchImages_solutionB, hl, hN]
    exact solB_spec _ (g * g) hl hassigned hinj i hi
  · rw [matchImages_solutionB, hl, hN, solB_length, List.length_replicate]
  · intro o ho
    rw [matchImages_solutionB, hl, hN] at ho
    obtain ⟨q, hq, hoq⟩ := List.getElem_of_mem ho
    have hqn : q < g * g := lt_of_lt_of_eq hq hlenf
    obtain ⟨iq, hiq, hval, _⟩ := solB_all_some _ (g * g) hl hassigned hinj
      hsurj q hqn
    refine ⟨iq, hiq, ?_⟩
    rw [List.getD_eq_getElem _ none hq] at hval
    rw [← hoq]
    exact hval
  · rw [matchImages_solutionB, hl, hN]
    refine List.nodup_iff_injective_get.mpr ?_
    intro q₁ q₂ heq
    have hq₁ : (q₁ : Nat) < g * g := lt_of_lt_of_eq q₁.isLt hlenf
    have hq₂ : (q₂ : Nat) < g * g := lt_of_lt_of_eq q₂.isLt hlenf
    obtain ⟨i₁, hi₁, hv₁, hs₁⟩ := solB_all_some _ (g * g) hl hassigned hinj
      hsurj (q₁ : Nat) hq₁
    obtain ⟨i₂, hi₂, hv₂, hs₂⟩ := solB_all_some _ (g * g) hl hassigned hinj
      hsurj (q₂ : Nat) hq₂
    rw [List.getD_eq_getElem _ none q₁.isLt] at hv₁
    rw [List.getD_eq_getElem _ none q₂.isLt] at hv₂
    have heq' : some i₁ = some i₂ := by
      rw [← hv₁, ← hv₂]
      simpa [List.get_eq_getElem] using heq
    have hieq : i₁ = i₂ := by injection heq'
    refine Fin.ext ?_
    rw [← hs₁, ← hs₂, hieq]

theorem C2_witness :
    Rectangular [["#aabbcc"]] ∧ Rectangular [["#ddeeff"]] ∧
    ValidPixels [["#aabbcc"]] ∧ ValidPixels [["#ddeeff"]] ∧
    ((matchImages [["#aabbcc"]] [["#ddeeff"]] 1).solutionA =
        List.range (1 * 1) ∧
      (∀ i, i < 1 * 1 →
        (matchImages [["#aabbcc"]] [["#ddeeff"]] 1).solutionB.getD
          ((hungarianAlgorithm (buildSimilarityMatrix
            (extractTiles [["#aabbcc"]] 1)
            (extractTiles [["#ddeeff"]] 1))).getD i (-1)).toNat none =
          some i) ∧
      (matchImages [["#aabbcc"]] [["#ddeeff"]] 1).solutionB.length = 1 * 1 ∧
      (∀ o ∈ (matchImages [["#aabbcc"]] [["#ddeeff"]] 1).solutionB,
        ∃ k, k < 1 * 1 ∧ o = some k) ∧
      (matchImages [["#aabbcc"]] [["#ddeeff"]] 1).solutionB.Nodup) :=
  ⟨by decide, by decide, by decide, by decide,
   C2_matchImages_solutions [["#aabbcc"]] [["#ddeeff"]] 1 (by decide)
     (by decide) (by decide) (by decide) (by decide) (by decide) (by decide)
     (by decide) (by decide)⟩

/-! ## C7: analyzeMatchQuality recommendation and its tie-breaking -/

theorem histScanStep_zero (targetCDF : List ℚ) (srcCdfVal : ℚ) (p : Nat × ℚ)
    (hp : p.2 = 0) (t : Nat) : histScanStep targetCDF srcCdfVal p t = p := by
  unfold histScanStep
  rw [if_neg]
  rw [hp]
  exact not_lt.mpr (abs_nonneg _)

theorem foldl_histScanStep_zero (targetCDF : List ℚ) (srcCdfVal : ℚ) :
    ∀ (L : List Nat) (p : Nat × ℚ), p.2 = 0 →
      L.foldl (histScanStep targetCDF srcCdfVal) p = p
  | [], _, _ => rfl
  | t :: L, p, hp => by
    rw [List.foldl_cons, histScanStep_zero targetCDF srcCdfVal p hp t,
      foldl_histScanStep_zero targetCDF srcCdfVal L p hp]

theorem bestTarget_zero (targetCDF : List ℚ) (srcCdfVal : ℚ)
    (h : targetCDF.getD 0 0 = srcCdfVal) :
    bestTarget targetCDF srcCdfVal = (0, 0) := by
  unfold bestTarget
  rw [h, sub_self, abs_zero]
  exact foldl_histScanStep_zero _ _ _ _ rfl

theorem createHistogramMapping_const (cdf : List ℚ)
    (h : ∀ v, v < 256 → cdf.getD v 0 = cdf.getD 0 0) :
    createHistogramMapping cdf cdf = List.replicate 256 0 := by
  unfold createHistogramMapping
  have hgen : ∀ (L : List Nat), (∀ v ∈ L, v < 256) →
      L.foldl (fun mapping srcVal =>
        mapping.set srcVal ((bestTarget cdf (cdf.getD srcVal 0)).1 : ℚ))
        (List.replicate 256 0) = List.replicate 256 0 := by
    intro L
    induction L with
    | nil => intro _; rfl
    | cons v L ih =>
      intro hL
      rw [List.foldl_cons,
        bestTarget_zero cdf (cdf.getD v 0) (h v (hL v (List.mem_cons_self v L))).symm]
      rw [show (((0 : Nat), (0 : ℚ)).1 : ℚ) = (0 : ℚ) from rfl,
        List.set_replicate_self]
      exact ih (fun u hu => hL u (List.mem_cons_of_mem v hu))
  exact hgen (List.range 256) (fun v hv => List.mem_range.mp hv)

theorem matchHistograms_black :
    matchHistograms blackImage3 blackImage3 = blackImage3 := by
  have hr : buildCDF (extractHistogram blackImage3).r
      (extractHistogram blackImage3).totalPixels = List.replicate 256 1 := by
    decide
  have hg : buildCDF (extractHistogram blackImage3).g
      (extractHistogram blackImage3).totalPixels = List.replicate 256 1 := by
    decide
  have hb : buildCDF (extractHistogram blackImage3).b
      (extractHistogram blackImage3).totalPixels = List.replicate 256 1 := by
    decide
  have hconst : ∀ v, v < 256 → (List.replicate 256 (1 : ℚ)).getD v 0 =
      (List.replicate 256 (1 : ℚ)).getD 0 0 := by
    intro v hv
    rw [getD_replicate _ _ hv, getD_replicate _ _ (by norm_num)]
  have hmap := createHistogramMapping_const (List.replicate 256 1) hconst
  simp only [matchHistograms]
  rw [hr, hg, hb, hmap]
  decide

theorem foldl_add_one (f : Nat → ℝ) :
    ∀ (L : List Nat), (∀ i ∈ L, f i = 1) → ∀ (acc : ℝ),
      L.foldl (fun a i => a + f i) acc = acc + L.length
  | [], _, acc => by simp
  | i :: L, h, acc => by
    rw [List.foldl_cons, foldl_add_one f L
      (fun x hx => h x (List.mem_cons_of_mem i hx)) (acc + f i),
      h i (List.mem_cons_self i L), List.length_cons]
    push_cast
    ring

theorem matchImages_black_totalSim :
    (matchImages blackImage3 blackImage3 3).totalSimilarity = 1 := by
  have htiles : extractTiles blackImage3 3 = List.replicate 9 [["#000000"]] := by
    decide
  have hlen9 : (extractTiles blackImage3 3).length = 9 := by
    rw [htiles]
    simp
  obtain ⟨hl, hassigned, _, _⟩ := hungarian_perm
    (buildSimilarityMatrix (extractTiles blackImage3 3)
      (extractTiles blackImage3 3))
  have hMlen : (buildSimilarityMatrix (extractTiles blackImage3 3)
      (extractTiles blackImage3 3)).length = 9 := by
    rw [buildSim_length, hlen9]
  rw [hMlen] at hl hassigned
  have htotal : (matchImages blackImage3 blackImage3 3).totalSimilarity =
      ((List.range (extractTiles blackImage3 3).length).foldl (fun acc i =>
        acc + ((buildSimilarityMatrix (extractTiles blackImage3 3)
          (extractTiles blackImage3 3)).getD i []).getD
          ((hungarianAlgorithm (buildSimilarityMatrix
            (extractTiles blackImage3 3) (extractTiles blackImage3 3))).getD i
            (-1)).toNat 0) 0) /
      ((extractTiles blackImage3 3).length : ℝ) := rfl
  rw [htotal, hlen9]
  have hone : ∀ i ∈ List.range 9,
      ((buildSimilarityMatrix (extractTiles blackImage3 3)
        (extractTiles blackImage3 3)).getD i []).getD
        ((hungarianAlgorithm (buildSimilarityMatrix (extractTiles blackImage3 3)
          (extractTiles blackImage3 3))).getD i (-1)).toNat 0 = 1 := by
    intro i hi
    have hi9 : i < 9 := List.mem_range.mp hi
    obtain ⟨j, hj, hjv⟩ := hassigned i hi9
    have hjd : (hungarianAlgorithm (buildSimilarityMatrix
        (extractTiles blackImage3 3) (extractTiles blackImage3 3))).getD i
        (-1) = (j : ℤ) := by
      rw [getD_irrel _ i (by rw [hl]; exact hi9) (-1) 0, hjv]
    rw [hjd, Int.toNat_natCast,
      buildSim_entry (extractTiles blackImage3 3) (extractTiles blackImage3 3)
        i j (by rw [hlen9]; exact hi9) (by rw [hlen9]; exact hj) 0,
      htiles, getD_replicate _ _ hi9, getD_replicate _ _ hj,
      tileSimilarity_self]
  rw [foldl_add_one _ (List.range 9) hone 0]
  norm_num

theorem matchImagesWithNorm_hist_black :
    matchImagesWithNormalization blackImage3 blackImage3 3
      ⟨NormMethod.histogram, Option.none⟩ =
      matchImages blackImage3 blackImage3 3 := by
  show matchImages (matchHistograms blackImage3 blackImage3)
    (matchHistograms blackImage3 blackImage3) 3 = _
  rw [matchHistograms_black]

theorem matchImagesWithNorm_palette_black :
    matchImagesWithNormalization blackImage3 blackImage3 3
      ⟨NormMethod.palette, Option.some 8⟩ =
      matchImages blackImage3 blackImage3 3 := by
  have hremap : remapToPalette blackImage3
      (findSharedPalette blackImage3 blackImage3 8) = blackImage3 := by
    decide
  show matchImages
    (remapToPalette blackImage3 (findSharedPalette blackImage3 blackImage3 8))
    (remapToPalette blackImage3 (findSharedPalette blackImage3 blackImage3 8))
    3 = _
  rw [hremap]

theorem reduce3_spec (s0 s1 s2 : ℝ) :
    ((List.foldl (fun (a b : RecMethod × ℝ) => if a.2 > b.2 then a else b)
        (RecMethod.none, s0)
        [(RecMethod.histogram, s1), (RecMethod.palette, s2)]).1 ≠
      RecMethod.luminance) ∧
    ((List.foldl (fun (a b : RecMethod × ℝ) => if a.2 > b.2 then a else b)
        (RecMethod.none, s0)
        [(RecMethod.histogram, s1), (RecMethod.palette, s2)]).1 =
      RecMethod.none ↔ s1 < s0 ∧ s2 < s0) ∧
    ((List.foldl (fun (a b : RecMethod × ℝ) => if a.2 > b.2 then a else b)
        (RecMethod.none, s0)
        [(RecMethod.histogram, s1), (RecMethod.palette, s2)]).1 =
      RecMethod.histogram ↔ s0 ≤ s1 ∧ s2 < s1) ∧
    ((List.foldl (fun (a b : RecMethod × ℝ) => if a.2 > b.2 then a else b)
        (RecMethod.none, s0)
        [(RecMethod.histogram, s1), (RecMethod.palette, s2)]).1 =
      RecMethod.palette ↔ max s0 s1 ≤ s2) := by
  simp only [List.foldl_cons, List.foldl_nil]
  by_cases h1 : s0 > s1
  · rw [if_pos h1]
    dsimp only
    by_cases h2 : s0 > s2
    · rw [if_pos h2]
      dsimp only
      refine ⟨by decide, ?_, ?_, ?_⟩
      · exact ⟨fun _ => ⟨h1, h2⟩, fun _ => rfl⟩
      · constructor
        · intro hx
          exact absurd hx (by decide)
        · rintro ⟨ha, _⟩
          exact absurd h1 (not_lt.mpr ha)
      · constructor
        · intro hx
          exact absurd hx (by decide)
        · intro hmax
          rw [max_le_iff] at hmax
          exact absurd h2 (not_lt.mpr hmax.1)
    · rw [if_neg h2]
      dsimp only
      have hs2 : s0 ≤ s2 := not_lt.mp h2
      refine ⟨by decide, ?_, ?_, ?_⟩
      · constructor
        · intro hx
          exact absurd hx (by decide)
        · rintro ⟨_, hb⟩
          exact absurd hb (not_lt.mpr hs2)
      · constructor
        · intro hx
          exact absurd hx (by decide)
        · rintro ⟨ha, _⟩
          exact absurd h1 (not_lt.mpr ha)
      · constructor
        · intro _
          rw [max_le_iff]
          exact ⟨hs2, le_trans (le_of_lt h1) hs2⟩
        · intro _
          rfl
  · rw [if_neg h1]
    dsimp only
    have hs1 : s0 ≤ s1 := not_lt.mp h1
    by_cases h2 : s1 > s2
    · rw [if_pos h2]
      dsimp only
      refine ⟨by decide, ?_, ?_, ?_⟩
      · constructor
        · intro hx
          exact absurd hx (by decide)
        · rintro ⟨ha, _⟩
          exact absurd ha (not_lt.mpr hs1)
      · exact ⟨fun _ => ⟨hs1, h2⟩, fun _ => rfl⟩
      · constructor
        · intro hx
          exact absurd hx (by decide)
        · intro hmax
          rw [max_le_iff] at hmax
          exact absurd h2 (not_lt.mpr hmax.2)
    · rw [if_neg h2]
      dsimp only
      have hs2 : s1 ≤ s2 := not_lt.mp h2
      refine ⟨by decide, ?_, ?_, ?_⟩
      · constructor
        · intro hx
          exact absurd hx (by decide)
        · rintro ⟨ha, _⟩
          exact absurd ha (not_lt.mpr hs1)
      · constructor
        · intro hx
          exact absurd hx (by decide)
        · rintro ⟨_, hb⟩
          exact absurd hb (not_lt.mpr hs2)
      · constructor
        · intro _
          rw [max_le_iff]
          exact ⟨le_trans hs1 hs2, hs2⟩
        · intro _
          rfl

/-- C7 (amended): `analyzeMatchQuality` evaluates exactly the three strategies
none / histogram / palette (never luminance) at `gridSize = 3` and recommends
the one with the highest total similarity, but exact ties are broken in favor
of the LAST-checked strategy (palette over histogram over none), because the
reduce keeps the later candidate when scores are equal. -/
theorem C7_analyze_recommendation (imageA imageB : List (List String)) :
    (analyzeMatchQuality imageA imageB).rawSimilarity =
      (matchImages imageA imageB 3).totalSimilarity ∧
    (analyzeMatchQuality imageA imageB).histogramSimilarity =
      (matchImagesWithNormalization imageA imageB 3
        ⟨NormMethod.histogram, Option.none⟩).totalSimilarity ∧
    (analyzeMatchQuality imageA imageB).paletteSimilarity =
      (matchImagesWithNormalization imageA imageB 3
        ⟨NormMethod.palette, Option.some 8⟩).totalSimilarity ∧
    (analyzeMatchQuality imageA imageB).recommendedMethod ≠
      RecMethod.luminance ∧
    ((analyzeMatchQuality imageA imageB).recommendedMethod = RecMethod.none ↔
      (analyzeMatchQuality imageA imageB).histogramSimilarity <
        (analyzeMatchQuality imageA imageB).rawSimilarity ∧
      (analyzeMatchQuality imageA imageB).paletteSimilarity <
        (analyzeMatchQuality imageA imageB).rawSimilarity) ∧
    ((analyzeMatchQuality imageA imageB).recommendedMethod =
        RecMethod.histogram ↔
      (analyzeMatchQuality imageA imageB).rawSimilarity ≤
        (analyzeMatchQuality imageA imageB).histogramSimilarity ∧
      (analyzeMatchQuality imageA imageB).paletteSimilarity <
        (analyzeMatchQuality imageA imageB).histogramSimilarity) ∧
    ((analyzeMatchQuality imageA imageB).recommendedMethod =
        RecMethod.palette ↔
      max (analyzeMatchQuality imageA imageB).rawSimilarity
        (analyzeMatchQuality imageA imageB).histogramSimilarity ≤
      (analyzeMatchQuality imageA imageB).paletteSimilarity) := by
  obtain ⟨h1, h2, h3, h4⟩ := reduce3_spec
    (matchImages imageA imageB 3).totalSimilarity
    (matchImagesWithNormalization imageA imageB 3
      ⟨NormMethod.histogram, Option.none⟩).totalSimilarity
    (matchImagesWithNormalization imageA imageB 3
      ⟨NormMethod.palette, Option.some 8⟩).totalSimilarity
  exact ⟨rfl, rfl, rfl, h1, h2, h3, h4⟩

/-- C7 counterexample to the claimed first-checked tie-break: on two identical
all-black 3×3 images all three strategies score exactly 1 (a three-way tie),
and the code recommends `palette` — the last-checked strategy — whereas the
claim's first-checked rule would demand `none`. -/
theorem C7_counterexample :
    (analyzeMatchQuality blackImage3 blackImage3).rawSimilarity = 1 ∧
    (analyzeMatchQuality blackImage3 blackImage3).histogramSimilarity = 1 ∧
    (analyzeMatchQuality blackImage3 blackImage3).paletteSimilarity = 1 ∧
    (analyzeMatchQuality blackImage3 blackImage3).recommendedMethod =
      RecMethod.palette := by
  have hraw := matchImages_black_totalSim
  have hhist : (matchImagesWithNormalization blackImage3 blackImage3 3
      ⟨NormMethod.histogram, Option.none⟩).totalSimilarity = 1 := by
    rw [matchImagesWithNorm_hist_black]
    exact hraw
  have hpal : (matchImagesWithNormalization blackImage3 blackImage3 3
      ⟨NormMethod.palette, Option.some 8⟩).totalSimilarity = 1 := by
    rw [matchImagesWithNorm_palette_black]
    exact hraw
  refine ⟨hraw, hhist, hpal, ?_⟩
  have hrec : (analyzeMatchQuality blackImage3 blackImage3).recommendedMethod =
      (List.foldl (fun (a b : RecMethod × ℝ) => if a.2 > b.2 then a else b)
        (RecMethod.none, (matchImages blackImage3 blackImage3 3).totalSimilarity)
        [(RecMethod.histogram, (matchImagesWithNormalization blackImage3
          blackImage3 3 ⟨NormMethod.histogram, Option.none⟩).totalSimilarity),
         (RecMethod.palette, (matchImagesWithNormalization blackImage3
          blackImage3 3 ⟨NormMethod.palette, Option.some 8⟩).totalSimilarity)]).1 :=
    rfl
  rw [hrec, hraw, hhist, hpal]
  simp only [List.foldl_cons, List.foldl_nil]
  rw [if_neg (by simp)]
